import Mathlib

/-!
Verification development for a browser drum-kit audio engine.

Shallow embedding of the core audio engine (voice triggering with
polyphony and choke management, latency telemetry), the sample loader,
and the channel-strip mixer (mute and solo policy, master EQ state
mirror, soft-limiter transfer curve).

Times and gain values are modelled as rationals; audio-node side effects
of a force-stop are recorded as an explicit list of scheduled operations.
-/

namespace DrumKit

/-- A drum pad configuration entry: identifier, sample path and
percussion type. Mirrors the static pad table the engine resolves
trigger ids against. -/
structure Pad where
  id : String
  samplePath : String
  type : String
deriving DecidableEq

/-- An in-flight playback voice, mirroring the engine's ActiveVoice
record. The gainValue field is the value held by the voice's gain
parameter (the velocity gain set at creation). -/
structure Voice where
  id : Nat
  drumId : String
  chokeGroup : Option String
  gainValue : ℚ
  startTime : ℚ
  endTime : ℚ
  ended : Bool
  stopped : Bool
deriving DecidableEq

/-- An operation scheduled on the audio graph by a force-stop or an
end-of-playback callback. -/
inductive AudioOp where
  | cancelScheduled (t : ℚ)
  | setValue (v : ℚ) (t : ℚ)
  | linearRampTo (v : ℚ) (t : ℚ)
  | stopSource (t : ℚ)
  | disconnectNodes
deriving DecidableEq

/-- The fixed fade-out window used by a force-stop: 15 milliseconds. -/
def fadeOutSec : ℚ := 15 / 1000

/-- Force-stop a voice, mirroring stopVoice: a no-op on an already
stopped voice; otherwise mark it stopped and schedule gain-automation
cancellation, a gain snapshot, a linear ramp to zero over the fade
window, and a hard stop of the source one millisecond after the fade. -/
def stopVoice (now : ℚ) (v : Voice) : Voice × List AudioOp :=
  if v.stopped then (v, [])
  else
    let baseTime := max now v.startTime
    let fadeStart := baseTime
    let stopAt := baseTime + fadeOutSec + 1 / 1000
    ({ v with stopped := true },
      [AudioOp.cancelScheduled fadeStart,
       AudioOp.setValue v.gainValue fadeStart,
       AudioOp.linearRampTo 0 (fadeStart + fadeOutSec),
       AudioOp.stopSource stopAt])

/-- The end-of-playback callback installed on every voice: marks the
voice ended and disconnects its source and gain nodes. -/
def onEnded (v : Voice) : Voice × List AudioOp :=
  ({ v with ended := true }, [AudioOp.disconnectNodes])

/-- The audio configuration fields the trigger path reads. The engine
applies a floor and a lower bound of one to maxVoices; preTriggerOffset
is in milliseconds. -/
structure AudioConfig where
  maxVoices : Nat
  preTriggerOffset : ℚ
deriving DecidableEq

/-- One latency measurement: trigger entry time, scheduling-complete
time, and their difference. -/
structure LatencyMetrics where
  triggerTime : ℚ
  audioTime : ℚ
  latency : ℚ
deriving DecidableEq

/-- The engine singleton state: static configuration (pad table, loaded
sample durations keyed by path, mixer track ids, audio config) and the
mutable voice, counter and telemetry state. -/
structure EngineState where
  isInitialized : Bool
  pads : List Pad
  samples : List (String × ℚ)
  mixerTracks : List String
  config : AudioConfig
  activeVoices : List Voice
  nextVoiceId : Nat
  latencyMetrics : List LatencyMetrics
deriving DecidableEq

/-- Per-call environment of a trigger: the audio-context clock, the
wall-clock entry and scheduling-complete timestamps, and whether the
caller passed a latency callback. -/
structure TriggerEnv where
  now : ℚ
  triggerTime : ℚ
  processingCompleteTime : ℚ
  hasCallback : Bool
deriving DecidableEq

/-- Result of a trigger call: the successor engine state, the boolean
return value, the voices force-stopped by the choke pass and by the
polyphony (FIFO) pass together with their scheduled operations, and the
newly created voice when the trigger was accepted. -/
structure TriggerResult where
  state : EngineState
  ok : Bool
  chokeStopped : List (Voice × List AudioOp)
  fifoEvicted : List (Voice × List AudioOp)
  newVoice : Option Voice
deriving DecidableEq

/-- Prune finished voices: keep those not ended whose end time is still
in the future. -/
def pruneVoices (now : ℚ) (l : List Voice) : List Voice :=
  l.filter (fun v => !v.ended && decide (now < v.endTime))

/-- The hi-hat choke pass: force-stop every active voice in the hihat
choke group and drop it from the active list, keeping the others in
order. Returns the remaining voices and the stopped ones. -/
def chokeHihats (now : ℚ) : List Voice → List Voice × List (Voice × List AudioOp)
  | [] => ([], [])
  | v :: rest =>
    let r := chokeHihats now rest
    if v.chokeGroup == some "hihat" then (r.1, stopVoice now v :: r.2)
    else (v :: r.1, r.2)

/-- Applies the choke pass only for hihat-typed pads. -/
def chokeStep (padType : String) (now : ℚ) (l : List Voice) :
    List Voice × List (Voice × List AudioOp) :=
  if padType == "hihat" then chokeHihats now l else (l, [])

/-- The polyphony (FIFO) pass: while the active list holds at least
maxV voices, shift off the front voice and force-stop it. Returns the
surviving voices and the evicted ones in eviction order. -/
def fifoEvict (now : ℚ) (maxV : Nat) : List Voice → List Voice × List (Voice × List AudioOp)
  | [] => ([], [])
  | v :: rest =>
    if maxV ≤ rest.length + 1 then
      let r := fifoEvict now maxV rest
      (r.1, stopVoice now v :: r.2)
    else (v :: rest, [])

/-- Append a metric to the rolling window, dropping the oldest entry
when the window exceeds one hundred entries. -/
def pushMetric (l : List LatencyMetrics) (m : LatencyMetrics) : List LatencyMetrics :=
  let pushed := l ++ [m]
  if 100 < pushed.length then pushed.tail else pushed

/-- The accepted-path body of a trigger: prune, choke, polyphony
enforcement, then the mixer-track lookup; on success create and append
the new voice and record latency when a callback was passed, otherwise
return false with the prune, choke and eviction effects already applied. -/
def triggerCore (s : EngineState) (pad : Pad) (duration : ℚ) (drumId : String)
    (velocity : ℚ) (env : TriggerEnv) : TriggerResult :=
  let pruned := pruneVoices env.now s.activeVoices
  let choked := chokeStep pad.type env.now pruned
  let evicted := fifoEvict env.now (max 1 s.config.maxVoices) choked.1
  let audioTime := env.now + max 0 (s.config.preTriggerOffset / 1000)
  if s.mixerTracks.contains drumId then
    let initialGain := max 0 (min (3 / 2) velocity)
    let voice : Voice :=
      { id := s.nextVoiceId
        drumId := drumId
        chokeGroup := if pad.type == "hihat" then some "hihat" else none
        gainValue := initialGain
        startTime := audioTime
        endTime := audioTime + duration
        ended := false
        stopped := false }
    { state :=
        { s with
          activeVoices := evicted.1 ++ [voice]
          nextVoiceId := s.nextVoiceId + 1
          latencyMetrics :=
            if env.hasCallback then
              pushMetric s.latencyMetrics
                ⟨env.triggerTime, env.processingCompleteTime,
                 env.processingCompleteTime - env.triggerTime⟩
            else s.latencyMetrics }
      ok := true
      chokeStopped := choked.2
      fifoEvicted := evicted.2
      newVoice := some voice }
  else
    { state := { s with activeVoices := evicted.1 }
      ok := false
      chokeStopped := choked.2
      fifoEvicted := evicted.2
      newVoice := none }

/-- Trigger a drum sound: reject when the engine is not initialized,
the pad id is unknown, or its sample buffer is not loaded; otherwise
run the trigger body. -/
def triggerDrum (s : EngineState) (drumId : String) (velocity : ℚ)
    (env : TriggerEnv) : TriggerResult :=
  if s.isInitialized then
    match s.pads.find? (fun p => p.id == drumId) with
    | some pad =>
      match s.samples.lookup pad.samplePath with
      | some duration => triggerCore s pad duration drumId velocity env
      | none => ⟨s, false, [], [], none⟩
    | none => ⟨s, false, [], [], none⟩
  else ⟨s, false, [], [], none⟩

/-- Latency statistics returned to observers. -/
structure LatencyStats where
  avg : ℚ
  min : ℚ
  max : ℚ
  count : Nat
deriving DecidableEq

/-- Current latency statistics: all zero over an empty window, otherwise
the running sum divided by the count, and the spread min and max of the
stored latencies. -/
def getLatencyStats (s : EngineState) : LatencyStats :=
  if s.latencyMetrics.length = 0 then ⟨0, 0, 0, 0⟩
  else
    let ls := s.latencyMetrics.map (fun m => m.latency)
    { avg := ls.foldl (· + ·) 0 / ls.length
      min := match ls with
        | [] => 0
        | a :: t => t.foldl min a
      max := match ls with
        | [] => 0
        | a :: t => t.foldl max a
      count := ls.length }

/-- One call in a trigger trace. -/
structure TriggerCall where
  drumId : String
  velocity : ℚ
  env : TriggerEnv
deriving DecidableEq

/-- Run a sequence of trigger calls, threading the engine state. -/
def runTriggers (s : EngineState) : List TriggerCall → EngineState
  | [] => s
  | c :: cs => runTriggers (triggerDrum s c.drumId c.velocity c.env).state cs

/-- The engine state right after initialization: empty voice list,
voice counter reset to one, empty telemetry window. -/
def initState (pads : List Pad) (samples : List (String × ℚ))
    (tracks : List String) (cfg : AudioConfig) : EngineState :=
  { isInitialized := true
    pads := pads
    samples := samples
    mixerTracks := tracks
    config := cfg
    activeVoices := []
    nextVoiceId := 1
    latencyMetrics := [] }

/-! ### Structural lemmas about the trigger passes -/

theorem stopVoice_fst_id (now : ℚ) (v : Voice) : (stopVoice now v).1.id = v.id := by
  unfold stopVoice
  split <;> rfl

theorem stopVoice_fst_chokeGroup (now : ℚ) (v : Voice) :
    (stopVoice now v).1.chokeGroup = v.chokeGroup := by
  unfold stopVoice
  split <;> rfl

theorem stopVoice_of_unstopped (now : ℚ) (v : Voice) (h : v.stopped = false) :
    stopVoice now v =
      ({ v with stopped := true },
        [AudioOp.cancelScheduled (max now v.startTime),
         AudioOp.setValue v.gainValue (max now v.startTime),
         AudioOp.linearRampTo 0 (max now v.startTime + fadeOutSec),
         AudioOp.stopSource (max now v.startTime + fadeOutSec + 1 / 1000)]) := by
  unfold stopVoice
  simp [h]

theorem chokeHihats_fst (now : ℚ) (l : List Voice) :
    (chokeHihats now l).1 = l.filter (fun v => !(v.chokeGroup == some "hihat")) := by
  induction l with
  | nil => rfl
  | cons v rest ih =>
    simp only [chokeHihats, List.filter_cons]
    cases h : (v.chokeGroup == some "hihat") <;> simp [h, ih]

theorem chokeHihats_snd (now : ℚ) (l : List Voice) :
    (chokeHihats now l).2 =
      (l.filter (fun v => v.chokeGroup == some "hihat")).map (stopVoice now) := by
  induction l with
  | nil => rfl
  | cons v rest ih =>
    simp only [chokeHihats, List.filter_cons]
    cases h : (v.chokeGroup == some "hihat") <;> simp [h, ih]

theorem fifoEvict_fst (now : ℚ) (maxV : Nat) (l : List Voice) :
    (fifoEvict now maxV l).1 = l.drop (l.length + 1 - maxV) := by
  induction l with
  | nil => simp [fifoEvict]
  | cons v rest ih =>
    simp only [fifoEvict]
    by_cases h : maxV ≤ rest.length + 1
    · rw [if_pos h]
      have hd : (v :: rest).length + 1 - maxV = (rest.length + 1 - maxV) + 1 := by
        simp only [List.length_cons]; omega
      rw [hd, List.drop_succ_cons, ih]
    · rw [if_neg h]
      have hd : (v :: rest).length + 1 - maxV = 0 := by
        simp only [List.length_cons]; omega
      rw [hd, List.drop_zero]

theorem fifoEvict_snd (now : ℚ) (maxV : Nat) (l : List Voice) :
    (fifoEvict now maxV l).2 = (l.take (l.length + 1 - maxV)).map (stopVoice now) := by
  induction l with
  | nil => simp [fifoEvict]
  | cons v rest ih =>
    simp only [fifoEvict]
    by_cases h : maxV ≤ rest.length + 1
    · rw [if_pos h]
      have hd : (v :: rest).length + 1 - maxV = (rest.length + 1 - maxV) + 1 := by
        simp only [List.length_cons]; omega
      rw [hd, List.take_succ_cons, List.map_cons, ih]
    · rw [if_neg h]
      have hd : (v :: rest).length + 1 - maxV = 0 := by
        simp only [List.length_cons]; omega
      rw [hd, List.take_zero, List.map_nil]

theorem fifoEvict_fst_sublist (now : ℚ) (maxV : Nat) (l : List Voice) :
    (fifoEvict now maxV l).1.Sublist l := by
  rw [fifoEvict_fst]
  exact List.drop_sublist _ _

theorem pruneVoices_sublist (now : ℚ) (l : List Voice) :
    (pruneVoices now l).Sublist l :=
  List.filter_sublist l

theorem triggerDrum_static (s : EngineState) (d : String) (vel : ℚ) (env : TriggerEnv) :
    (triggerDrum s d vel env).state.isInitialized = s.isInitialized ∧
    (triggerDrum s d vel env).state.pads = s.pads ∧
    (triggerDrum s d vel env).state.samples = s.samples ∧
    (triggerDrum s d vel env).state.mixerTracks = s.mixerTracks ∧
    (triggerDrum s d vel env).state.config = s.config := by
  unfold triggerDrum triggerCore
  repeat' split
  all_goals simp

theorem runTriggers_static (s : EngineState) (calls : List TriggerCall) :
    (runTriggers s calls).isInitialized = s.isInitialized ∧
    (runTriggers s calls).pads = s.pads ∧
    (runTriggers s calls).samples = s.samples ∧
    (runTriggers s calls).mixerTracks = s.mixerTracks ∧
    (runTriggers s calls).config = s.config := by
  induction calls generalizing s with
  | nil => exact ⟨rfl, rfl, rfl, rfl, rfl⟩
  | cons c cs ih =>
    have h1 := triggerDrum_static s c.drumId c.velocity c.env
    have h2 := ih (triggerDrum s c.drumId c.velocity c.env).state
    simp only [runTriggers]
    exact ⟨h2.1.trans h1.1, h2.2.1.trans h1.2.1, h2.2.2.1.trans h1.2.2.1,
      h2.2.2.2.1.trans h1.2.2.2.1, h2.2.2.2.2.trans h1.2.2.2.2⟩

/-! ### The reachable-state invariant of the voice allocator -/

/-- Invariant maintained by every trigger: the active list is strictly
ascending by voice id, all ids are below the counter, no listed voice is
stopped or ended, at most one listed voice is in the hihat choke group,
the list never exceeds the effective polyphony ceiling, and the latency
window holds at most one hundred entries. -/
def VoicesOK (s : EngineState) : Prop :=
  List.Pairwise (fun a b => a.id < b.id) s.activeVoices ∧
  (∀ v ∈ s.activeVoices, v.id < s.nextVoiceId) ∧
  (∀ v ∈ s.activeVoices, v.stopped = false ∧ v.ended = false) ∧
  s.activeVoices.countP (fun v => v.chokeGroup == some "hihat") ≤ 1 ∧
  s.activeVoices.length ≤ max 1 s.config.maxVoices ∧
  s.latencyMetrics.length ≤ 100

theorem voicesOK_initState (pads : List Pad) (samples : List (String × ℚ))
    (tracks : List String) (cfg : AudioConfig) :
    VoicesOK (initState pads samples tracks cfg) := by
  refine ⟨?_, ?_, ?_, ?_, ?_, ?_⟩ <;> simp [initState]

theorem chokeStep_fst_sublist (padType : String) (now : ℚ) (l : List Voice) :
    (chokeStep padType now l).1.Sublist l := by
  unfold chokeStep
  split
  · rw [chokeHihats_fst]
    exact List.filter_sublist l
  · exact List.Sublist.refl l

theorem chokeStep_fst_no_hihat (padType : String) (now : ℚ) (l : List Voice)
    (h : (padType == "hihat") = true) :
    ∀ v ∈ (chokeStep padType now l).1, (v.chokeGroup == some "hihat") = false := by
  unfold chokeStep
  rw [h]
  simp only [if_pos, chokeHihats_fst]
  intro v hv
  have hm := List.mem_filter.mp hv
  simpa using hm.2

theorem pushMetric_length_le (l : List LatencyMetrics) (m : LatencyMetrics)
    (h : l.length ≤ 100) : (pushMetric l m).length ≤ 100 := by
  simp only [pushMetric]
  split
  · next h2 =>
    simp only [List.length_append, List.length_singleton] at h2
    simp only [List.length_tail, List.length_append, List.length_singleton]
    omega
  · next h2 =>
    simp only [not_lt, List.length_append, List.length_singleton] at h2 ⊢
    omega

theorem fifoEvict_fst_length (now : ℚ) (maxV : Nat) (l : List Voice) (h : 1 ≤ maxV) :
    (fifoEvict now maxV l).1.length + 1 ≤ maxV := by
  rw [fifoEvict_fst, List.length_drop]
  omega

theorem voicesOK_triggerCore (s : EngineState) (pad : Pad) (duration : ℚ)
    (drumId : String) (velocity : ℚ) (env : TriggerEnv) (h : VoicesOK s) :
    VoicesOK (triggerCore s pad duration drumId velocity env).state := by
  obtain ⟨hpw, hid, hflags, hcnt, hlen, hmet⟩ := h
  have hsubA : (fifoEvict env.now (max 1 s.config.maxVoices)
      (chokeStep pad.type env.now (pruneVoices env.now s.activeVoices)).1).1.Sublist
      s.activeVoices :=
    (fifoEvict_fst_sublist _ _ _).trans
      ((chokeStep_fst_sublist _ _ _).trans (pruneVoices_sublist _ _))
  have hm1 : 1 ≤ max 1 s.config.maxVoices := le_max_left _ _
  have hevlen := fifoEvict_fst_length env.now (max 1 s.config.maxVoices)
    (chokeStep pad.type env.now (pruneVoices env.now s.activeVoices)).1 hm1
  unfold triggerCore
  split
  · -- accepted: new voice appended
    refine ⟨?_, ?_, ?_, ?_, ?_, ?_⟩
    · simp only
      rw [List.pairwise_append]
      refine ⟨hpw.sublist hsubA, List.pairwise_singleton _ _, ?_⟩
      intro a ha b hb
      simp only [List.mem_singleton] at hb
      subst hb
      exact hid a (hsubA.mem ha)
    · simp only
      intro v hv
      rcases List.mem_append.mp hv with hv | hv
      · exact Nat.lt_succ_of_lt (hid v (hsubA.mem hv))
      · simp only [List.mem_singleton] at hv
        subst hv
        exact Nat.lt_succ_self _
    · simp only
      intro v hv
      rcases List.mem_append.mp hv with hv | hv
      · exact hflags v (hsubA.mem hv)
      · simp only [List.mem_singleton] at hv
        subst hv
        exact ⟨rfl, rfl⟩
    · simp only [List.countP_append]
      by_cases hh : (pad.type == "hihat") = true
      · have hzero : (fifoEvict env.now (max 1 s.config.maxVoices)
            (chokeStep pad.type env.now (pruneVoices env.now s.activeVoices)).1).1.countP
            (fun v => v.chokeGroup == some "hihat") = 0 := by
          apply Nat.le_zero.mp
          calc _ ≤ (chokeStep pad.type env.now
                (pruneVoices env.now s.activeVoices)).1.countP
                (fun v => v.chokeGroup == some "hihat") :=
                (fifoEvict_fst_sublist _ _ _).countP_le _
            _ = 0 := by
                apply List.countP_eq_zero.mpr
                intro v hv
                simp [chokeStep_fst_no_hihat pad.type env.now _ hh v hv]
        rw [hzero, hh]
        simp
      · have hf : (pad.type == "hihat") = false := by
          simpa using hh
        have hle := hsubA.countP_le (fun v => v.chokeGroup == some "hihat")
        rw [hf]
        simp only [Bool.false_eq_true, if_false, List.countP_cons, List.countP_nil]
        simp only [show (((none : Option String)) == some "hihat") = false from rfl,
          Bool.false_eq_true, if_false]
        omega
    · simp only [List.length_append, List.length_singleton]
      exact hevlen
    · simp only
      split
      · exact pushMetric_length_le _ _ hmet
      · exact hmet
  · -- rejected at the mixer-track lookup: prune, choke, evictions applied
    refine ⟨hpw.sublist hsubA, ?_, ?_, ?_, ?_, hmet⟩
    · exact fun v hv => hid v (hsubA.mem hv)
    · exact fun v hv => hflags v (hsubA.mem hv)
    · exact le_trans (hsubA.countP_le _) hcnt
    · exact le_trans (hsubA.length_le) hlen

theorem voicesOK_step (s : EngineState) (d : String) (vel : ℚ) (env : TriggerEnv)
    (h : VoicesOK s) : VoicesOK (triggerDrum s d vel env).state := by
  unfold triggerDrum
  split
  · split
    · split
      · exact voicesOK_triggerCore s _ _ d vel env h
      · exact h
    · exact h
  · exact h

theorem voicesOK_runTriggers (s : EngineState) (calls : List TriggerCall)
    (h : VoicesOK s) : VoicesOK (runTriggers s calls) := by
  induction calls generalizing s with
  | nil => exact h
  | cons c cs ih => exact ih _ (voicesOK_step s c.drumId c.velocity c.env h)

theorem voicesOK_reachable (pads : List Pad) (samples : List (String × ℚ))
    (tracks : List String) (cfg : AudioConfig) (calls : List TriggerCall) :
    VoicesOK (runTriggers (initState pads samples tracks cfg) calls) :=
  voicesOK_runTriggers _ calls (voicesOK_initState pads samples tracks cfg)

/-! ### Eviction-order facts for the polyphony pass -/

theorem fifoEvict_facts (now : ℚ) (maxV : Nat) (C extra : List Voice)
    (hpwC : List.Pairwise (fun a b => a.id < b.id) C)
    (hflagsC : ∀ v ∈ C, v.stopped = false)
    (hextra : ∀ v ∈ C, ∀ w ∈ extra, v.id < w.id) :
    (∀ e ∈ (fifoEvict now maxV C).2, e.1.stopped = true ∧
        AudioOp.linearRampTo 0 (max now e.1.startTime + fadeOutSec) ∈ e.2) ∧
    (∀ e ∈ (fifoEvict now maxV C).2,
        ∀ w ∈ (fifoEvict now maxV C).1 ++ extra, e.1.id < w.id) ∧
    List.Pairwise (fun a b => a.1.id < b.1.id) (fifoEvict now maxV C).2 := by
  rw [fifoEvict_fst, fifoEvict_snd]
  have hpwsplit := List.pairwise_append.mp
    (show List.Pairwise (fun a b => a.id < b.id)
        (C.take (C.length + 1 - maxV) ++ C.drop (C.length + 1 - maxV)) by
      rw [List.take_append_drop]
      exact hpwC)
  refine ⟨?_, ?_, ?_⟩
  · intro e he
    obtain ⟨v, hvtake, rfl⟩ := List.mem_map.mp he
    have hvC : v ∈ C := (List.take_sublist _ _).subset hvtake
    rw [stopVoice_of_unstopped now v (hflagsC v hvC)]
    exact ⟨rfl, by simp⟩
  · intro e he w hw
    obtain ⟨v, hvtake, rfl⟩ := List.mem_map.mp he
    have hvC : v ∈ C := (List.take_sublist _ _).subset hvtake
    rw [stopVoice_fst_id]
    rcases List.mem_append.mp hw with hw | hw
    · exact hpwsplit.2.2 v hvtake w hw
    · exact hextra v hvC w hw
  · rw [List.pairwise_map]
    refine List.Pairwise.imp ?_ (hpwC.sublist (List.take_sublist _ _))
    intro a b hab
    rw [stopVoice_fst_id, stopVoice_fst_id]
    exact hab

theorem triggerCore_evict_facts (s : EngineState) (pad : Pad) (duration : ℚ)
    (drumId : String) (velocity : ℚ) (env : TriggerEnv)
    (hpw : List.Pairwise (fun a b => a.id < b.id) s.activeVoices)
    (hid : ∀ v ∈ s.activeVoices, v.id < s.nextVoiceId)
    (hflags : ∀ v ∈ s.activeVoices, v.stopped = false ∧ v.ended = false) :
    (∀ e ∈ (triggerCore s pad duration drumId velocity env).fifoEvicted,
        e.1.stopped = true ∧
        AudioOp.linearRampTo 0 (max env.now e.1.startTime + fadeOutSec) ∈ e.2) ∧
    (∀ e ∈ (triggerCore s pad duration drumId velocity env).fifoEvicted,
        ∀ w ∈ (triggerCore s pad duration drumId velocity env).state.activeVoices,
          e.1.id < w.id) ∧
    List.Pairwise (fun a b => a.1.id < b.1.id)
      (triggerCore s pad duration drumId velocity env).fifoEvicted := by
  have hCsub := (chokeStep_fst_sublist pad.type env.now
    (pruneVoices env.now s.activeVoices)).trans (pruneVoices_sublist env.now s.activeVoices)
  have hpwC := hpw.sublist hCsub
  have hflagsC : ∀ v ∈ (chokeStep pad.type env.now
      (pruneVoices env.now s.activeVoices)).1, v.stopped = false :=
    fun v hv => (hflags v (hCsub.subset hv)).1
  unfold triggerCore
  split
  · dsimp only
    exact fifoEvict_facts env.now (max 1 s.config.maxVoices) _ _ hpwC hflagsC
      (by
        intro v hv w hw
        simp only [List.mem_singleton] at hw
        subst hw
        exact hid v (hCsub.subset hv))
  · dsimp only
    have hfacts := fifoEvict_facts env.now (max 1 s.config.maxVoices)
      (chokeStep pad.type env.now (pruneVoices env.now s.activeVoices)).1 []
      hpwC hflagsC (by intro v _ w hw; cases hw)
    refine ⟨hfacts.1, ?_, hfacts.2.2⟩
    intro e he w hw
    exact hfacts.2.1 e he w (by rw [List.append_nil]; exact hw)

theorem triggerDrum_evict_facts (s : EngineState) (d : String) (vel : ℚ) (env : TriggerEnv)
    (h : VoicesOK s) :
    (∀ e ∈ (triggerDrum s d vel env).fifoEvicted, e.1.stopped = true ∧
        AudioOp.linearRampTo 0 (max env.now e.1.startTime + fadeOutSec) ∈ e.2) ∧
    (∀ e ∈ (triggerDrum s d vel env).fifoEvicted,
        ∀ w ∈ (triggerDrum s d vel env).state.activeVoices, e.1.id < w.id) ∧
    List.Pairwise (fun a b => a.1.id < b.1.id) (triggerDrum s d vel env).fifoEvicted := by
  obtain ⟨hpw, hid, hflags, _, _, _⟩ := h
  unfold triggerDrum
  split
  · split
    · split
      · exact triggerCore_evict_facts s _ _ d vel env hpw hid hflags
      · simp
    · simp
  · simp

/-! ### Concrete fixtures used by witnesses and counterexamples -/

/-- A small concrete pad table for witness scenarios. -/
def padsDemo : List Pad :=
  [⟨"kick", "/samples/kick.wav", "kick"⟩,
   ⟨"snare", "/samples/snare.wav", "snare"⟩,
   ⟨"hihat-closed", "/samples/hihat-closed.wav", "hihat"⟩,
   ⟨"hihat-open", "/samples/hihat-open.wav", "hihat"⟩]

/-- Loaded sample durations for the demo pads. -/
def samplesDemo : List (String × ℚ) :=
  [("/samples/kick.wav", 1), ("/samples/snare.wav", 1),
   ("/samples/hihat-closed.wav", 1 / 2), ("/samples/hihat-open.wav", 2)]

/-- Mixer tracks for the demo pads. -/
def tracksDemo : List String := ["kick", "snare", "hihat-closed", "hihat-open"]

/-- A trigger environment at audio-clock time t with a latency callback. -/
def envDemo (t : ℚ) : TriggerEnv := ⟨t, t, t + 1 / 2, true⟩

/-- The engine state after one kick trigger with a polyphony ceiling of one
and a mixer holding only the kick track. -/
def demoStateKick : EngineState :=
  { isInitialized := true, pads := padsDemo, samples := samplesDemo,
    mixerTracks := ["kick"], config := ⟨1, 0⟩,
    activeVoices := [⟨1, "kick", none, 1, 0, 1, false, false⟩],
    nextVoiceId := 2, latencyMetrics := [⟨0, 1 / 2, 1 / 2⟩] }

/-- The engine state after one closed-hihat trigger with a five-millisecond
pre-trigger offset: its voice is scheduled in the future. -/
def demoStateHat : EngineState :=
  { isInitialized := true, pads := padsDemo, samples := samplesDemo,
    mixerTracks := tracksDemo, config := ⟨32, 5⟩,
    activeVoices := [⟨1, "hihat-closed", some "hihat", 1, 5 / 1000, 5 / 1000 + 1 / 2, false, false⟩],
    nextVoiceId := 2, latencyMetrics := [] }

/-! ### Anatomy of a trigger call -/

theorem pairwise_head_le (l : List Voice)
    (hpw : List.Pairwise (fun a b => a.id < b.id) l) (hne : l ≠ [])
    (v : Voice) (hv : v ∈ l) : (l.head hne).id ≤ v.id := by
  cases l with
  | nil => exact absurd rfl hne
  | cons a t =>
    rcases List.mem_cons.mp hv with rfl | hv
    · exact le_refl _
    · exact le_of_lt ((List.pairwise_cons.mp hpw).1 v hv)

theorem triggerDrum_anatomy (s : EngineState) (d : String) (vel : ℚ) (env : TriggerEnv) :
    ∃ pre, pre.Sublist s.activeVoices ∧
      (((triggerDrum s d vel env).newVoice = none ∧
        (triggerDrum s d vel env).state.activeVoices = pre ∧
        (triggerDrum s d vel env).state.nextVoiceId = s.nextVoiceId) ∨
       (∃ w, (triggerDrum s d vel env).newVoice = some w ∧ w.id = s.nextVoiceId ∧
         (triggerDrum s d vel env).state.nextVoiceId = s.nextVoiceId + 1 ∧
         (triggerDrum s d vel env).state.activeVoices = pre ++ [w])) := by
  unfold triggerDrum
  split
  · split
    · next pad _ =>
      split
      · unfold triggerCore
        have hCsub := (fifoEvict_fst_sublist env.now (max 1 s.config.maxVoices)
            (chokeStep pad.type env.now (pruneVoices env.now s.activeVoices)).1).trans
          ((chokeStep_fst_sublist pad.type env.now
              (pruneVoices env.now s.activeVoices)).trans
            (pruneVoices_sublist env.now s.activeVoices))
        split
        · exact ⟨_, hCsub, Or.inr ⟨_, rfl, rfl, rfl, rfl⟩⟩
        · exact ⟨_, hCsub, Or.inl ⟨rfl, rfl, rfl⟩⟩
      · exact ⟨s.activeVoices, List.Sublist.refl _, Or.inl ⟨rfl, rfl, rfl⟩⟩
    · exact ⟨s.activeVoices, List.Sublist.refl _, Or.inl ⟨rfl, rfl, rfl⟩⟩
  · exact ⟨s.activeVoices, List.Sublist.refl _, Or.inl ⟨rfl, rfl, rfl⟩⟩

/-! ### Claim C1 -/

/-- C1: over any sequence of triggerDrum calls from a freshly initialized
engine with a configured ceiling of at least one, the active-voice list never
holds more than maxVoices voices, and whenever the polyphony pass evicts, the
evicted voices are force-stopped (stopped flag set, fade-out ramp scheduled)
and are exactly the oldest voices: the evicted entries are ascending by id and
every evicted id is strictly below every id still active after the call, so
the lowest-id voice is always evicted first (FIFO). -/
theorem polyphony_ceiling_fifo (pads : List Pad) (samples : List (String × ℚ))
    (tracks : List String) (cfg : AudioConfig) (calls : List TriggerCall)
    (d : String) (vel : ℚ) (env : TriggerEnv) (hmax : 1 ≤ cfg.maxVoices) :
    (runTriggers (initState pads samples tracks cfg) calls).activeVoices.length ≤
      cfg.maxVoices ∧
    (triggerDrum (runTriggers (initState pads samples tracks cfg) calls)
        d vel env).state.activeVoices.length ≤ cfg.maxVoices ∧
    (∀ e ∈ (triggerDrum (runTriggers (initState pads samples tracks cfg) calls)
        d vel env).fifoEvicted,
      e.1.stopped = true ∧
      AudioOp.linearRampTo 0 (max env.now e.1.startTime + fadeOutSec) ∈ e.2) ∧
    (∀ e ∈ (triggerDrum (runTriggers (initState pads samples tracks cfg) calls)
        d vel env).fifoEvicted,
      ∀ w ∈ (triggerDrum (runTriggers (initState pads samples tracks cfg) calls)
          d vel env).state.activeVoices, e.1.id < w.id) ∧
    List.Pairwise (fun a b => a.1.id < b.1.id)
      (triggerDrum (runTriggers (initState pads samples tracks cfg) calls)
        d vel env).fifoEvicted := by
  have hOK := voicesOK_reachable pads samples tracks cfg calls
  have hcfg : (runTriggers (initState pads samples tracks cfg) calls).config = cfg :=
    (runTriggers_static _ _).2.2.2.2
  have hmax2 : max 1 cfg.maxVoices = cfg.maxVoices := Nat.max_eq_right hmax
  have h1 := hOK.2.2.2.2.1
  rw [hcfg, hmax2] at h1
  have hOK2 := voicesOK_step _ d vel env hOK
  have hcfg2 := (triggerDrum_static (runTriggers (initState pads samples tracks cfg) calls)
    d vel env).2.2.2.2
  have h2 := hOK2.2.2.2.2.1
  rw [hcfg2, hcfg, hmax2] at h2
  have hev := triggerDrum_evict_facts _ d vel env hOK
  exact ⟨h1, h2, hev.1, hev.2.1, hev.2.2⟩

/-- Witness for C1: a ceiling of two, two kick triggers, then a third call. -/
theorem polyphony_ceiling_fifo_witness :
    1 ≤ (2 : Nat) ∧
    (triggerDrum (runTriggers (initState padsDemo samplesDemo tracksDemo ⟨2, 0⟩)
        [⟨"kick", 1, envDemo 0⟩, ⟨"kick", 1, envDemo (1 / 10)⟩])
        "kick" 1 (envDemo (2 / 10))).state.activeVoices.length ≤ 2 :=
  ⟨by decide,
   (polyphony_ceiling_fifo padsDemo samplesDemo tracksDemo ⟨2, 0⟩
      [⟨"kick", 1, envDemo 0⟩, ⟨"kick", 1, envDemo (1 / 10)⟩]
      "kick" 1 (envDemo (2 / 10)) (by decide)).2.1⟩

/-! ### Claim C10 -/

/-- C10: within a session the active-voice list is always strictly ascending
by id, its first element is the lowest-id (oldest) voice, every id is below
the strictly increasing counter, and a trigger call either only removes voices
(keeping relative order, witnessed by a sublist) or additionally appends one
fresh voice, carrying the counter value as id, at the tail. -/
theorem voice_list_ordered (pads : List Pad) (samples : List (String × ℚ))
    (tracks : List String) (cfg : AudioConfig) (calls : List TriggerCall)
    (d : String) (vel : ℚ) (env : TriggerEnv) :
    List.Pairwise (fun a b => a.id < b.id)
      (runTriggers (initState pads samples tracks cfg) calls).activeVoices ∧
    (∀ hne : (runTriggers (initState pads samples tracks cfg) calls).activeVoices ≠ [],
      ∀ v ∈ (runTriggers (initState pads samples tracks cfg) calls).activeVoices,
        ((runTriggers (initState pads samples tracks cfg) calls).activeVoices.head hne).id ≤
          v.id) ∧
    (∀ v ∈ (runTriggers (initState pads samples tracks cfg) calls).activeVoices,
      v.id < (runTriggers (initState pads samples tracks cfg) calls).nextVoiceId) ∧
    (∃ pre, pre.Sublist (runTriggers (initState pads samples tracks cfg) calls).activeVoices ∧
      (((triggerDrum (runTriggers (initState pads samples tracks cfg) calls)
            d vel env).newVoice = none ∧
        (triggerDrum (runTriggers (initState pads samples tracks cfg) calls)
            d vel env).state.activeVoices = pre ∧
        (triggerDrum (runTriggers (initState pads samples tracks cfg) calls)
            d vel env).state.nextVoiceId =
          (runTriggers (initState pads samples tracks cfg) calls).nextVoiceId) ∨
       (∃ w, (triggerDrum (runTriggers (initState pads samples tracks cfg) calls)
            d vel env).newVoice = some w ∧
         w.id = (runTriggers (initState pads samples tracks cfg) calls).nextVoiceId ∧
         (triggerDrum (runTriggers (initState pads samples tracks cfg) calls)
             d vel env).state.nextVoiceId =
           (runTriggers (initState pads samples tracks cfg) calls).nextVoiceId + 1 ∧
         (triggerDrum (runTriggers (initState pads samples tracks cfg) calls)
             d vel env).state.activeVoices = pre ++ [w]))) := by
  have hOK := voicesOK_reachable pads samples tracks cfg calls
  refine ⟨hOK.1, ?_, hOK.2.1, triggerDrum_anatomy _ d vel env⟩
  intro hne v hv
  exact pairwise_head_le _ hOK.1 hne v hv

/-- Witness for C10: two accepted triggers, then a hihat trigger. -/
theorem voice_list_ordered_witness :
    List.Pairwise (fun a b => a.id < b.id)
      (runTriggers (initState padsDemo samplesDemo tracksDemo ⟨32, 0⟩)
        [⟨"kick", 1, envDemo 0⟩, ⟨"hihat-closed", 1, envDemo (1 / 10)⟩]).activeVoices ∧
    (∀ v ∈ (runTriggers (initState padsDemo samplesDemo tracksDemo ⟨32, 0⟩)
        [⟨"kick", 1, envDemo 0⟩, ⟨"hihat-closed", 1, envDemo (1 / 10)⟩]).activeVoices,
      v.id < (runTriggers (initState padsDemo samplesDemo tracksDemo ⟨32, 0⟩)
        [⟨"kick", 1, envDemo 0⟩, ⟨"hihat-closed", 1, envDemo (1 / 10)⟩]).nextVoiceId) :=
  ⟨(voice_list_ordered padsDemo samplesDemo tracksDemo ⟨32, 0⟩
      [⟨"kick", 1, envDemo 0⟩, ⟨"hihat-closed", 1, envDemo (1 / 10)⟩]
      "snare" 1 (envDemo (2 / 10))).1,
   (voice_list_ordered padsDemo samplesDemo tracksDemo ⟨32, 0⟩
      [⟨"kick", 1, envDemo 0⟩, ⟨"hihat-closed", 1, envDemo (1 / 10)⟩]
      "snare" 1 (envDemo (2 / 10))).2.2.1⟩

/-! ### Claim C2 -/

theorem pairwise_id_inj (l : List Voice)
    (hpw : List.Pairwise (fun a b => a.id < b.id) l) :
    ∀ a ∈ l, ∀ b ∈ l, a.id = b.id → a = b := by
  induction l with
  | nil => intro a ha; cases ha
  | cons x t ih =>
    have hc := List.pairwise_cons.mp hpw
    intro a ha b hb heq
    rcases List.mem_cons.mp ha with h1 | h1
    · rcases List.mem_cons.mp hb with h2 | h2
      · rw [h1, h2]
      · exfalso
        rw [h1] at heq
        exact Nat.ne_of_lt (hc.1 b h2) heq
    · rcases List.mem_cons.mp hb with h2 | h2
      · exfalso
        rw [h2] at heq
        exact Nat.ne_of_lt (hc.1 a h1) heq.symm
      · exact ih hc.2 a h1 b h2 heq

theorem triggerCore_chokeStopped (s : EngineState) (pad : Pad) (duration : ℚ)
    (drumId : String) (velocity : ℚ) (env : TriggerEnv) :
    (triggerCore s pad duration drumId velocity env).chokeStopped =
      (chokeStep pad.type env.now (pruneVoices env.now s.activeVoices)).2 := by
  unfold triggerCore
  split <;> rfl

theorem triggerCore_removed_hihat (s : EngineState) (pad : Pad) (duration : ℚ)
    (drumId : String) (velocity : ℚ) (env : TriggerEnv)
    (hpw : List.Pairwise (fun a b => a.id < b.id) s.activeVoices)
    (hid : ∀ v ∈ s.activeVoices, v.id < s.nextVoiceId)
    (htype : (pad.type == "hihat") = true) :
    ∀ v ∈ s.activeVoices, v.chokeGroup = some "hihat" →
      ∀ w ∈ (triggerCore s pad duration drumId velocity env).state.activeVoices,
        w.id ≠ v.id := by
  intro v hv hch w hw heq
  have hmain : w ∈ (fifoEvict env.now (max 1 s.config.maxVoices)
      (chokeStep pad.type env.now (pruneVoices env.now s.activeVoices)).1).1 →
      False := by
    intro hw2
    have hwC : w ∈ (chokeStep pad.type env.now (pruneVoices env.now s.activeVoices)).1 :=
      (fifoEvict_fst_sublist _ _ _).subset hw2
    have hwA : w ∈ s.activeVoices :=
      ((chokeStep_fst_sublist _ _ _).trans (pruneVoices_sublist _ _)).subset hwC
    have hne := chokeStep_fst_no_hihat pad.type env.now _ htype w hwC
    have hwv : w = v := pairwise_id_inj _ hpw w hwA v hv heq
    rw [hwv, hch] at hne
    simp at hne
  unfold triggerCore at hw
  split at hw
  · dsimp only at hw
    rcases List.mem_append.mp hw with hw | hw
    · exact hmain hw
    · simp only [List.mem_singleton] at hw
      subst hw
      have := hid v hv
      simp only at heq
      omega
  · dsimp only at hw
    exact hmain hw

/-- C2: after a triggerDrum call that resolves to a hihat-typed pad with a
loaded sample, every hihat-group voice that was active (still playing) before
the call has been force-stopped (stopped flag set, fade-out ramp scheduled)
and no longer appears in the active list; at most one hihat voice is in the
active list after the call, and likewise at most one was before it. -/
theorem hihat_choke_exclusive (pads : List Pad) (samples : List (String × ℚ))
    (tracks : List String) (cfg : AudioConfig) (calls : List TriggerCall)
    (d : String) (vel : ℚ) (env : TriggerEnv) (pad : Pad) (dur : ℚ)
    (hpad : pads.find? (fun p => p.id == d) = some pad)
    (htype : pad.type = "hihat")
    (hsamp : samples.lookup pad.samplePath = some dur) :
    (∀ v ∈ (runTriggers (initState pads samples tracks cfg) calls).activeVoices,
      v.chokeGroup = some "hihat" → env.now < v.endTime →
      ((∃ e ∈ (triggerDrum (runTriggers (initState pads samples tracks cfg) calls)
            d vel env).chokeStopped,
          e.1.id = v.id ∧ e.1.stopped = true ∧
          AudioOp.linearRampTo 0 (max env.now v.startTime + fadeOutSec) ∈ e.2) ∧
       ∀ w ∈ (triggerDrum (runTriggers (initState pads samples tracks cfg) calls)
            d vel env).state.activeVoices, w.id ≠ v.id)) ∧
    (triggerDrum (runTriggers (initState pads samples tracks cfg) calls)
        d vel env).state.activeVoices.countP
      (fun w => w.chokeGroup == some "hihat") ≤ 1 ∧
    (runTriggers (initState pads samples tracks cfg) calls).activeVoices.countP
      (fun w => w.chokeGroup == some "hihat") ≤ 1 := by
  have hOK := voicesOK_reachable pads samples tracks cfg calls
  have hOK2 := voicesOK_step _ d vel env hOK
  have hstat := runTriggers_static (initState pads samples tracks cfg) calls
  have hinit : (runTriggers (initState pads samples tracks cfg) calls).isInitialized = true := by
    simpa [initState] using hstat.1
  have hpads : (runTriggers (initState pads samples tracks cfg) calls).pads = pads := by
    simpa [initState] using hstat.2.1
  have hsampeq : (runTriggers (initState pads samples tracks cfg) calls).samples = samples := by
    simpa [initState] using hstat.2.2.1
  have htypeb : (pad.type == "hihat") = true := by simp [htype]
  have heq : triggerDrum (runTriggers (initState pads samples tracks cfg) calls) d vel env =
      triggerCore (runTriggers (initState pads samples tracks cfg) calls) pad dur d vel env := by
    unfold triggerDrum
    simp only [hinit, hpads, hsampeq, hpad, hsamp, if_true]
  refine ⟨?_, hOK2.2.2.2.1, hOK.2.2.2.1⟩
  intro v hv hch hlt
  constructor
  · rw [heq, triggerCore_chokeStopped]
    unfold chokeStep
    rw [htypeb]
    simp only [if_true, chokeHihats_snd]
    refine ⟨stopVoice env.now v, List.mem_map.mpr ⟨v, ?_, rfl⟩, ?_⟩
    · apply List.mem_filter.mpr
      refine ⟨?_, by simp [hch]⟩
      apply List.mem_filter.mpr
      refine ⟨hv, ?_⟩
      have hf := (hOK.2.2.1 v hv).2
      simp [hf, hlt]
    · rw [stopVoice_of_unstopped env.now v (hOK.2.2.1 v hv).1]
      exact ⟨rfl, rfl, by simp⟩
  · rw [heq]
    exact triggerCore_removed_hihat _ pad dur d vel env hOK.1 hOK.2.1 htypeb v hv hch

/-- Witness for C2: two hihat triggers in immediate succession. -/
theorem hihat_choke_exclusive_witness :
    padsDemo.find? (fun p => p.id == "hihat-open") =
      some ⟨"hihat-open", "/samples/hihat-open.wav", "hihat"⟩ ∧
    (triggerDrum (runTriggers (initState padsDemo samplesDemo tracksDemo ⟨32, 0⟩)
        [⟨"hihat-closed", 1, envDemo 0⟩])
        "hihat-open" 1 (envDemo (1 / 10))).state.activeVoices.countP
      (fun w => w.chokeGroup == some "hihat") ≤ 1 :=
  ⟨rfl,
   (hihat_choke_exclusive padsDemo samplesDemo tracksDemo ⟨32, 0⟩
      [⟨"hihat-closed", 1, envDemo 0⟩] "hihat-open" 1 (envDemo (1 / 10))
      ⟨"hihat-open", "/samples/hihat-open.wav", "hihat"⟩ 2
      rfl rfl rfl).2.1⟩

/-! ### Claim C3 -/

/-- The early rejection checks of triggerDrum: engine initialized, pad id
known, sample buffer loaded. The mixer-track check is not among them: it
runs only after the prune, choke and polyphony passes. -/
def passesEarlyChecks (s : EngineState) (drumId : String) : Bool :=
  s.isInitialized &&
    match s.pads.find? (fun p => p.id == drumId) with
    | none => false
    | some pad => (s.samples.lookup pad.samplePath).isSome

/-- C3 counterexample: with a polyphony ceiling of one and a mixer missing
the snare track, a snare trigger is rejected (returns false) yet the call is
not a no-op: the kick voice that was active before the call has been evicted,
so the active-voice set is not exactly as it was before the call. -/
theorem trigger_reject_not_noop_cex :
    (triggerDrum (triggerDrum (initState padsDemo samplesDemo ["kick"] ⟨1, 0⟩)
        "kick" 1 (envDemo 0)).state "snare" 1 (envDemo (1 / 10))).ok = false ∧
    (triggerDrum (initState padsDemo samplesDemo ["kick"] ⟨1, 0⟩)
        "kick" 1 (envDemo 0)).state.activeVoices.length = 1 ∧
    (triggerDrum (triggerDrum (initState padsDemo samplesDemo ["kick"] ⟨1, 0⟩)
        "kick" 1 (envDemo 0)).state "snare" 1 (envDemo (1 / 10))).state.activeVoices = [] := by
  have h1 : (triggerDrum (initState padsDemo samplesDemo ["kick"] ⟨1, 0⟩)
      "kick" 1 (envDemo 0)).state = demoStateKick := by
    simp [triggerDrum, triggerCore, initState, padsDemo, samplesDemo, envDemo,
      pruneVoices, chokeStep, chokeHihats, fifoEvict, stopVoice, pushMetric, fadeOutSec,
      List.lookup, demoStateKick,
      (show max (0 : ℚ) (min (3 / 2) 1) = 1 from by norm_num)]
  rw [h1]
  simp [triggerDrum, triggerCore, demoStateKick, padsDemo, samplesDemo, envDemo,
    pruneVoices, chokeStep, chokeHihats, fifoEvict, stopVoice, pushMetric, fadeOutSec,
    List.lookup,
    (show ((1 : ℚ) / 10 < 1) = True from by norm_num),
    (show (((10 : ℚ))⁻¹ < 1) = True from by norm_num)]

/-- C3 amended: every rejected trigger returns false, creates no voice and
leaves the latency window and voice counter unchanged; a rejection by one of
the early checks (engine not initialized, unknown pad id, unloaded sample)
leaves the state exactly as before, while a rejection at the mixer-track
lookup happens after the prune, choke and FIFO passes have already run, so
the active list may have shrunk (it is always a sublist of the previous
active list and never gains a voice). -/
theorem trigger_reject_amended (s : EngineState) (d : String) (vel : ℚ) (env : TriggerEnv)
    (hrej : (triggerDrum s d vel env).ok = false) :
    (triggerDrum s d vel env).newVoice = none ∧
    (triggerDrum s d vel env).state.latencyMetrics = s.latencyMetrics ∧
    (triggerDrum s d vel env).state.nextVoiceId = s.nextVoiceId ∧
    (triggerDrum s d vel env).state.activeVoices.Sublist s.activeVoices ∧
    (passesEarlyChecks s d = false → (triggerDrum s d vel env).state = s) := by
  by_cases hinit : s.isInitialized = true
  · cases hpad : s.pads.find? (fun p => p.id == d) with
    | none =>
      have hres : triggerDrum s d vel env = ⟨s, false, [], [], none⟩ := by
        unfold triggerDrum
        rw [if_pos hinit, hpad]
      rw [hres]
      exact ⟨rfl, rfl, rfl, List.Sublist.refl _, fun _ => rfl⟩
    | some pad =>
      cases hsamp : s.samples.lookup pad.samplePath with
      | none =>
        have hres : triggerDrum s d vel env = ⟨s, false, [], [], none⟩ := by
          unfold triggerDrum
          rw [if_pos hinit, hpad]
          dsimp only
          rw [hsamp]
        rw [hres]
        exact ⟨rfl, rfl, rfl, List.Sublist.refl _, fun _ => rfl⟩
      | some dur =>
        have hres : triggerDrum s d vel env = triggerCore s pad dur d vel env := by
          unfold triggerDrum
          rw [if_pos hinit, hpad]
          dsimp only
          rw [hsamp]
        have hearly : passesEarlyChecks s d = true := by
          unfold passesEarlyChecks
          rw [hinit, hpad]
          dsimp only
          rw [hsamp]
          rfl
        rw [hres] at hrej ⊢
        by_cases hcont : s.mixerTracks.contains d = true
        · exfalso
          unfold triggerCore at hrej
          rw [if_pos hcont] at hrej
          simp at hrej
        · have hres2 : triggerCore s pad dur d vel env =
              ⟨{ s with activeVoices := (fifoEvict env.now (max 1 s.config.maxVoices)
                  (chokeStep pad.type env.now (pruneVoices env.now s.activeVoices)).1).1 },
                false,
                (chokeStep pad.type env.now (pruneVoices env.now s.activeVoices)).2,
                (fifoEvict env.now (max 1 s.config.maxVoices)
                  (chokeStep pad.type env.now (pruneVoices env.now s.activeVoices)).1).2,
                none⟩ := by
            unfold triggerCore
            rw [if_neg hcont]
          rw [hres2]
          refine ⟨rfl, rfl, rfl, ?_, ?_⟩
          · exact (fifoEvict_fst_sublist _ _ _).trans
              ((chokeStep_fst_sublist _ _ _).trans (pruneVoices_sublist _ _))
          · intro hfalse
            rw [hearly] at hfalse
            exact absurd hfalse (by decide)
  · have hres : triggerDrum s d vel env = ⟨s, false, [], [], none⟩ := by
      unfold triggerDrum
      rw [if_neg hinit]
    rw [hres]
    exact ⟨rfl, rfl, rfl, List.Sublist.refl _, fun _ => rfl⟩

/-- Witness for the amended C3: the rejected snare trigger of the
counterexample scenario creates no voice and leaves the latency window
unchanged. -/
theorem trigger_reject_amended_witness :
    (triggerDrum (triggerDrum (initState padsDemo samplesDemo ["kick"] ⟨1, 0⟩)
        "kick" 1 (envDemo 0)).state "snare" 1 (envDemo (1 / 10))).ok = false ∧
    (triggerDrum (triggerDrum (initState padsDemo samplesDemo ["kick"] ⟨1, 0⟩)
        "kick" 1 (envDemo 0)).state "snare" 1 (envDemo (1 / 10))).newVoice = none :=
  have hrej : (triggerDrum (triggerDrum (initState padsDemo samplesDemo ["kick"] ⟨1, 0⟩)
      "kick" 1 (envDemo 0)).state "snare" 1 (envDemo (1 / 10))).ok = false := rfl
  ⟨hrej,
   (trigger_reject_amended (triggerDrum (initState padsDemo samplesDemo ["kick"] ⟨1, 0⟩)
      "kick" 1 (envDemo 0)).state "snare" 1 (envDemo (1 / 10)) hrej).1⟩

/-! ### Claim C4 -/

/-- C4 counterexample: with a positive pre-trigger offset (five
milliseconds) a hihat voice is scheduled in the future; choking it while the
audio clock still reads zero cancels and anchors the whole stop sequence at
the voice start time 1/200 s, not at now = 0, so the claimed cancellation
from now does not hold for every force-stopped voice. -/
theorem stop_cancel_not_from_now_cex :
    ((triggerDrum (triggerDrum (initState padsDemo samplesDemo tracksDemo ⟨32, 5⟩)
        "hihat-closed" 1 ⟨0, 0, 1, false⟩).state
        "hihat-open" 1 ⟨0, 0, 1, false⟩).chokeStopped.map (fun e => e.2)) =
      [[AudioOp.cancelScheduled (5 / 1000),
        AudioOp.setValue 1 (5 / 1000),
        AudioOp.linearRampTo 0 (5 / 1000 + 15 / 1000),
        AudioOp.stopSource (5 / 1000 + 15 / 1000 + 1 / 1000)]] ∧
    ((5 : ℚ) / 1000 ≠ 0) := by
  have h1 : (triggerDrum (initState padsDemo samplesDemo tracksDemo ⟨32, 5⟩)
      "hihat-closed" 1 ⟨0, 0, 1, false⟩).state = demoStateHat := by
    simp [triggerDrum, triggerCore, initState, padsDemo, samplesDemo, tracksDemo,
      pruneVoices, chokeStep, chokeHihats, fifoEvict, stopVoice, pushMetric, fadeOutSec,
      List.lookup, demoStateHat,
      (show max (0 : ℚ) (min (3 / 2) 1) = 1 from by norm_num),
      (show max (0 : ℚ) ((5 : ℚ) / 1000) = 5 / 1000 from by norm_num)]
  rw [h1]
  constructor
  · simp [triggerDrum, triggerCore, demoStateHat, padsDemo, samplesDemo, tracksDemo,
      pruneVoices, chokeStep, chokeHihats, fifoEvict, stopVoice, pushMetric, fadeOutSec,
      List.lookup,
      (show ((0 : ℚ) < 5 / 1000 + 1 / 2) = True from by norm_num),
      (show ((0 : ℚ) < 5 / 1000 + (2 : ℚ)⁻¹) = True from by norm_num),
      (show max (0 : ℚ) ((5 : ℚ) / 1000) = 5 / 1000 from by norm_num)]
  · norm_num

/-- C4 amended: force-stopping an unstopped voice cancels pending gain
automation from the fade start, sets the gain parameter to its snapshot value
at the fade start, ramps it linearly to zero over exactly 15 ms, and
schedules the hard stop at fade start + 15 ms + 1 ms, where the fade start is
the later of now and the scheduled start time of the voice — equal to now
whenever the voice has already started; the stop sequence performs no node
disconnection, which is instead done by the end-of-playback callback. -/
theorem stop_sequence_amended (now : ℚ) (v : Voice) (h : v.stopped = false) :
    stopVoice now v =
      ({ v with stopped := true },
        [AudioOp.cancelScheduled (max now v.startTime),
         AudioOp.setValue v.gainValue (max now v.startTime),
         AudioOp.linearRampTo 0 (max now v.startTime + 15 / 1000),
         AudioOp.stopSource (max now v.startTime + 15 / 1000 + 1 / 1000)]) ∧
    (v.startTime ≤ now → max now v.startTime = now) ∧
    (∀ op ∈ (stopVoice now v).2, op ≠ AudioOp.disconnectNodes) ∧
    onEnded v = ({ v with ended := true }, [AudioOp.disconnectNodes]) := by
  have hs := stopVoice_of_unstopped now v h
  refine ⟨by rw [hs]; rfl, fun hle => max_eq_left hle, ?_, rfl⟩
  intro op hop
  rw [hs] at hop
  simp only [List.mem_cons, List.not_mem_nil, or_false] at hop
  rcases hop with rfl | rfl | rfl | rfl <;> simp

/-- Witness for the amended C4: a concrete already-started voice. -/
theorem stop_sequence_amended_witness :
    (⟨7, "kick", none, 1, 0, 1, false, false⟩ : Voice).stopped = false ∧
    stopVoice (1 / 2) (⟨7, "kick", none, 1, 0, 1, false, false⟩ : Voice) =
      ({ (⟨7, "kick", none, 1, 0, 1, false, false⟩ : Voice) with stopped := true },
        [AudioOp.cancelScheduled (max (1 / 2) 0),
         AudioOp.setValue 1 (max (1 / 2) 0),
         AudioOp.linearRampTo 0 (max (1 / 2) 0 + 15 / 1000),
         AudioOp.stopSource (max (1 / 2) 0 + 15 / 1000 + 1 / 1000)]) :=
  ⟨rfl, (stop_sequence_amended (1 / 2) ⟨7, "kick", none, 1, 0, 1, false, false⟩ rfl).1⟩

/-! ### Claim C5 -/

/-- The last n entries of a list. -/
def lastN {α : Type} (n : Nat) (l : List α) : List α := l.drop (l.length - n)

/-- The latency metrics recorded along a trace: one entry per accepted
trigger that passed a latency callback. -/
def recordedMetrics (s : EngineState) : List TriggerCall → List LatencyMetrics
  | [] => []
  | c :: cs =>
    (if (triggerDrum s c.drumId c.velocity c.env).ok && c.env.hasCallback then
      [⟨c.env.triggerTime, c.env.processingCompleteTime,
        c.env.processingCompleteTime - c.env.triggerTime⟩]
    else []) ++ recordedMetrics (triggerDrum s c.drumId c.velocity c.env).state cs

theorem lastN_of_le {α : Type} (n : Nat) (l : List α) (h : l.length ≤ n) :
    lastN n l = l := by
  unfold lastN
  rw [Nat.sub_eq_zero_of_le h, List.drop_zero]

theorem lastN_length {α : Type} (n : Nat) (l : List α) :
    (lastN n l).length = min l.length n := by
  unfold lastN
  rw [List.length_drop]
  omega

theorem lastN_append_lastN {α : Type} (n : Nat) (A B : List α) :
    lastN n (lastN n A ++ B) = lastN n (A ++ B) := by
  by_cases h : A.length ≤ n
  · rw [lastN_of_le n A h]
  · have hn : n ≤ A.length := le_of_not_le h
    unfold lastN
    simp only [List.drop_append_eq_append_drop, List.drop_drop, List.length_append,
      List.length_drop]
    congr 2 <;> omega

theorem pushMetric_eq_lastN (l : List LatencyMetrics) (m : LatencyMetrics)
    (h : l.length ≤ 100) : pushMetric l m = lastN 100 (l ++ [m]) := by
  simp only [pushMetric]
  unfold lastN
  split
  · next h2 =>
    simp only [List.length_append, List.length_singleton] at h2 ⊢
    rw [show l.length + 1 - 100 = 1 from by omega, List.drop_one]
  · next h2 =>
    simp only [not_lt, List.length_append, List.length_singleton] at h2 ⊢
    rw [show l.length + 1 - 100 = 0 from by omega, List.drop_zero]

theorem triggerDrum_metrics (s : EngineState) (d : String) (vel : ℚ) (env : TriggerEnv) :
    (triggerDrum s d vel env).state.latencyMetrics =
      if (triggerDrum s d vel env).ok && env.hasCallback then
        pushMetric s.latencyMetrics
          ⟨env.triggerTime, env.processingCompleteTime,
           env.processingCompleteTime - env.triggerTime⟩
      else s.latencyMetrics := by
  unfold triggerDrum triggerCore
  repeat' split
  all_goals simp_all

theorem runTriggers_metrics (calls : List TriggerCall) :
    ∀ (s : EngineState), s.latencyMetrics.length ≤ 100 →
    (runTriggers s calls).latencyMetrics =
      lastN 100 (s.latencyMetrics ++ recordedMetrics s calls) := by
  induction calls with
  | nil =>
    intro s h
    simp only [runTriggers, recordedMetrics, List.append_nil]
    exact (lastN_of_le 100 _ h).symm
  | cons c cs ih =>
    intro s h
    simp only [runTriggers, recordedMetrics]
    have hm := triggerDrum_metrics s c.drumId c.velocity c.env
    by_cases hok : ((triggerDrum s c.drumId c.velocity c.env).ok && c.env.hasCallback) = true
    · have hstep : (triggerDrum s c.drumId c.velocity c.env).state.latencyMetrics =
          lastN 100 (s.latencyMetrics ++
            [⟨c.env.triggerTime, c.env.processingCompleteTime,
              c.env.processingCompleteTime - c.env.triggerTime⟩]) := by
        rw [hm, if_pos hok, pushMetric_eq_lastN _ _ h]
      have hlen2 : (triggerDrum s c.drumId c.velocity c.env).state.latencyMetrics.length
          ≤ 100 := by
        rw [hstep, lastN_length]
        omega
      rw [ih _ hlen2, hstep, lastN_append_lastN, if_pos hok, List.append_assoc]
    · have hb : ((triggerDrum s c.drumId c.velocity c.env).ok && c.env.hasCallback) = false := by
        simpa using hok
      have hstep : (triggerDrum s c.drumId c.velocity c.env).state.latencyMetrics =
          s.latencyMetrics := by
        rw [hm, hb]
        rfl
      have hlen2 : (triggerDrum s c.drumId c.velocity c.env).state.latencyMetrics.length
          ≤ 100 := by
        rw [hstep]
        exact h
      rw [ih _ hlen2, hstep, hb]
      rfl

theorem foldl_add_eq (l : List ℚ) : ∀ x : ℚ, l.foldl (· + ·) x = x + l.sum := by
  induction l with
  | nil =>
    intro x
    simp
  | cons a t ih =>
    intro x
    simp only [List.foldl_cons, List.sum_cons, ih, add_assoc]

theorem foldl_min_mem (t : List ℚ) : ∀ a : ℚ, t.foldl min a ∈ a :: t := by
  induction t with
  | nil =>
    intro a
    simp
  | cons b t ih =>
    intro a
    simp only [List.foldl_cons]
    rcases List.mem_cons.mp (ih (min a b)) with h | h
    · rcases min_choice a b with h2 | h2 <;> rw [h, h2]
      · exact List.mem_cons_self _ _
      · exact List.mem_cons.mpr (Or.inr (List.mem_cons_self _ _))
    · exact List.mem_cons.mpr (Or.inr (List.mem_cons.mpr (Or.inr h)))

theorem foldl_min_le (t : List ℚ) : ∀ (a x : ℚ), x ∈ a :: t → t.foldl min a ≤ x := by
  induction t with
  | nil =>
    intro a x hx
    rw [List.mem_singleton] at hx
    subst hx
    exact le_refl _
  | cons b t ih =>
    intro a x hx
    simp only [List.foldl_cons]
    rcases List.mem_cons.mp hx with h1 | hx2
    · exact le_trans (le_trans (ih (min a b) (min a b) (List.mem_cons_self _ _))
        (min_le_left a b)) (le_of_eq h1.symm)
    · rcases List.mem_cons.mp hx2 with h1 | hx3
      · exact le_trans (le_trans (ih (min a b) (min a b) (List.mem_cons_self _ _))
          (min_le_right a b)) (le_of_eq h1.symm)
      · exact ih (min a b) x (List.mem_cons.mpr (Or.inr hx3))

theorem foldl_max_mem (t : List ℚ) : ∀ a : ℚ, t.foldl max a ∈ a :: t := by
  induction t with
  | nil =>
    intro a
    simp
  | cons b t ih =>
    intro a
    simp only [List.foldl_cons]
    rcases List.mem_cons.mp (ih (max a b)) with h | h
    · rcases max_choice a b with h2 | h2 <;> rw [h, h2]
      · exact List.mem_cons_self _ _
      · exact List.mem_cons.mpr (Or.inr (List.mem_cons_self _ _))
    · exact List.mem_cons.mpr (Or.inr (List.mem_cons.mpr (Or.inr h)))

theorem le_foldl_max (t : List ℚ) : ∀ (a x : ℚ), x ∈ a :: t → x ≤ t.foldl max a := by
  induction t with
  | nil =>
    intro a x hx
    rw [List.mem_singleton] at hx
    subst hx
    exact le_refl _
  | cons b t ih =>
    intro a x hx
    simp only [List.foldl_cons]
    rcases List.mem_cons.mp hx with h1 | hx2
    · exact le_trans (le_of_eq h1) (le_trans (le_max_left a b)
        (ih (max a b) (max a b) (List.mem_cons_self _ _)))
    · rcases List.mem_cons.mp hx2 with h1 | hx3
      · exact le_trans (le_of_eq h1) (le_trans (le_max_right a b)
          (ih (max a b) (max a b) (List.mem_cons_self _ _)))
      · exact ih (max a b) x (List.mem_cons.mpr (Or.inr hx3))

theorem getLatencyStats_spec (s : EngineState) :
    (s.latencyMetrics = [] → getLatencyStats s = ⟨0, 0, 0, 0⟩) ∧
    (getLatencyStats s).count = s.latencyMetrics.length ∧
    (s.latencyMetrics ≠ [] →
      (getLatencyStats s).avg =
        (s.latencyMetrics.map (fun m => m.latency)).sum / s.latencyMetrics.length ∧
      (getLatencyStats s).min ∈ s.latencyMetrics.map (fun m => m.latency) ∧
      (∀ x ∈ s.latencyMetrics.map (fun m => m.latency), (getLatencyStats s).min ≤ x) ∧
      (getLatencyStats s).max ∈ s.latencyMetrics.map (fun m => m.latency) ∧
      (∀ x ∈ s.latencyMetrics.map (fun m => m.latency), x ≤ (getLatencyStats s).max)) := by
  cases hl : s.latencyMetrics with
  | nil =>
    refine ⟨fun _ => ?_, ?_, fun hne => absurd rfl hne⟩
    · unfold getLatencyStats
      rw [hl]
      rfl
    · unfold getLatencyStats
      rw [hl]
      rfl
  | cons m rest =>
    have hstats : getLatencyStats s =
        { avg := ((m :: rest).map (fun x => x.latency)).foldl (· + ·) 0 /
            ((m :: rest).map (fun x => x.latency)).length
          min := (rest.map (fun x => x.latency)).foldl min m.latency
          max := (rest.map (fun x => x.latency)).foldl max m.latency
          count := ((m :: rest).map (fun x => x.latency)).length } := by
      unfold getLatencyStats
      rw [hl]
      simp
    refine ⟨fun hc => absurd hc (by simp), ?_, fun _ => ?_⟩
    · rw [hstats]
      simp
    · rw [hstats]
      refine ⟨?_, ?_, ?_, ?_, ?_⟩
      · simp only [foldl_add_eq, zero_add, List.length_map]
      · simp only [List.map_cons]
        exact foldl_min_mem _ _
      · intro x hx
        exact foldl_min_le _ _ x (by simpa using hx)
      · simp only [List.map_cons]
        exact foldl_max_mem _ _
      · intro x hx
        exact le_foldl_max _ _ x (by simpa using hx)

/-- C5 counterexample: an accepted trigger that passes no latency callback
records nothing, so after one accepted trigger the reported count is zero,
not one, refuting the claim that every accepted trigger enters the window. -/
theorem latency_callback_cex :
    (triggerDrum (initState padsDemo samplesDemo tracksDemo ⟨32, 0⟩)
      "kick" 1 ⟨0, 0, 1, false⟩).ok = true ∧
    getLatencyStats (runTriggers (initState padsDemo samplesDemo tracksDemo ⟨32, 0⟩)
      [⟨"kick", 1, ⟨0, 0, 1, false⟩⟩]) = ⟨0, 0, 0, 0⟩ := by
  exact ⟨rfl, rfl⟩

/-- C5 amended: the latency window holds exactly the last (at most) one
hundred metrics of the accepted triggers that passed a latency callback,
FIFO: after N such triggers the count is min N 100 and the oldest surplus
entries are dropped; over an empty window the stats are all zero, and over a
non-empty window avg is the arithmetic mean and min and max are the least
and greatest stored latencies. -/
theorem latency_window_amended (pads : List Pad) (samples : List (String × ℚ))
    (tracks : List String) (cfg : AudioConfig) (calls : List TriggerCall) :
    (runTriggers (initState pads samples tracks cfg) calls).latencyMetrics =
      lastN 100 (recordedMetrics (initState pads samples tracks cfg) calls) ∧
    (getLatencyStats (runTriggers (initState pads samples tracks cfg) calls)).count =
      min (recordedMetrics (initState pads samples tracks cfg) calls).length 100 ∧
    (recordedMetrics (initState pads samples tracks cfg) calls = [] →
      getLatencyStats (runTriggers (initState pads samples tracks cfg) calls) =
        ⟨0, 0, 0, 0⟩) ∧
    (recordedMetrics (initState pads samples tracks cfg) calls ≠ [] →
      (getLatencyStats (runTriggers (initState pads samples tracks cfg) calls)).avg =
        ((lastN 100 (recordedMetrics (initState pads samples tracks cfg) calls)).map
            (fun m => m.latency)).sum /
          (lastN 100 (recordedMetrics (initState pads samples tracks cfg) calls)).length ∧
      (getLatencyStats (runTriggers (initState pads samples tracks cfg) calls)).min ∈
        (lastN 100 (recordedMetrics (initState pads samples tracks cfg) calls)).map
          (fun m => m.latency) ∧
      (∀ x ∈ (lastN 100 (recordedMetrics (initState pads samples tracks cfg) calls)).map
          (fun m => m.latency),
        (getLatencyStats (runTriggers (initState pads samples tracks cfg) calls)).min ≤ x) ∧
      (getLatencyStats (runTriggers (initState pads samples tracks cfg) calls)).max ∈
        (lastN 100 (recordedMetrics (initState pads samples tracks cfg) calls)).map
          (fun m => m.latency) ∧
      (∀ x ∈ (lastN 100 (recordedMetrics (initState pads samples tracks cfg) calls)).map
          (fun m => m.latency),
        x ≤ (getLatencyStats (runTriggers (initState pads samples tracks cfg) calls)).max)) := by
  have hwin : (runTriggers (initState pads samples tracks cfg) calls).latencyMetrics =
      lastN 100 (recordedMetrics (initState pads samples tracks cfg) calls) := by
    have := runTriggers_metrics calls (initState pads samples tracks cfg) (by simp [initState])
    simpa [initState] using this
  have hspec := getLatencyStats_spec (runTriggers (initState pads samples tracks cfg) calls)
  refine ⟨hwin, ?_, ?_, ?_⟩
  · rw [hspec.2.1, hwin, lastN_length]
  · intro hempty
    exact hspec.1 (by rw [hwin, hempty]; rfl)
  · intro hne
    have hwne : (runTriggers (initState pads samples tracks cfg) calls).latencyMetrics ≠ [] := by
      rw [hwin]
      intro hc
      have := lastN_length (α := LatencyMetrics) 100
        (recordedMetrics (initState pads samples tracks cfg) calls)
      rw [hc] at this
      simp only [List.length_nil] at this
      have hpos : 0 < (recordedMetrics (initState pads samples tracks cfg) calls).length :=
        List.length_pos.mpr hne
      omega
    have h3 := hspec.2.2 hwne
    rw [hwin] at h3
    exact h3

/-- Witness for the amended C5: one accepted trigger with a callback. -/
theorem latency_window_amended_witness :
    (runTriggers (initState padsDemo samplesDemo tracksDemo ⟨32, 0⟩)
        [⟨"kick", 1, envDemo 0⟩]).latencyMetrics =
      lastN 100 (recordedMetrics (initState padsDemo samplesDemo tracksDemo ⟨32, 0⟩)
        [⟨"kick", 1, envDemo 0⟩]) :=
  (latency_window_amended padsDemo samplesDemo tracksDemo ⟨32, 0⟩
    [⟨"kick", 1, envDemo 0⟩]).1

/-! ### The mixer model -/

/-- Mixer-state record of one channel strip. -/
structure MTrackState where
  volume : ℚ
  pan : ℚ
  muted : Bool
  soloed : Bool
  inputGain : ℚ
deriving DecidableEq

/-- Master-bus EQ mirror stored in the mixer state. -/
structure MasterEQ where
  lowGain : ℚ
  midGain : ℚ
  highGain : ℚ
  midFreq : ℚ
deriving DecidableEq

/-- The mixer engine singleton: presence flags for the audio context and the
master chain, the live fader-gain node value per track, the per-track state
mirror, the derived solo-active flag, the live master EQ node parameters and
the master EQ state mirror. -/
structure MixerModel where
  ctxOk : Bool
  masterPresent : Bool
  trackNodes : List (String × ℚ)
  stateTracks : List (String × MTrackState)
  soloActive : Bool
  eqLowNode : ℚ
  eqMidNode : ℚ
  eqHighNode : ℚ
  eqMidFreqNode : ℚ
  stateMasterEq : MasterEQ
deriving DecidableEq

/-- Replace the value stored under a key, leaving other entries and the
entry order unchanged (mutation of the object held in the map). -/
def setAssoc {β : Type} (l : List (String × β)) (k : String) (v : β) :
    List (String × β) :=
  l.map (fun p => if p.1 == k then (p.1, v) else p)

/-- Effective fader gain: zero when the track is muted; when solo is active
globally, the base volume for soloed tracks and zero for the others; else
the base volume. -/
def calculateEffectiveVolume (m : MixerModel) (trackId : String) (baseVolume : ℚ) : ℚ :=
  match m.stateTracks.lookup trackId with
  | none => 0
  | some st =>
    if st.muted then 0
    else if m.soloActive then (if st.soloed then baseVolume else 0)
    else baseVolume

/-- Set a track fader: a no-op when the track nodes, the track state or the
audio context are missing; otherwise apply the mute and solo policy to the
live fader node and mirror the configured volume into the state. -/
def setTrackVolume (m : MixerModel) (trackId : String) (volume : ℚ) : MixerModel :=
  match m.trackNodes.lookup trackId, m.stateTracks.lookup trackId with
  | some _, some st =>
    if m.ctxOk then
      { m with
        trackNodes := setAssoc m.trackNodes trackId
          (calculateEffectiveVolume m trackId volume)
        stateTracks := setAssoc m.stateTracks trackId { st with volume := volume } }
    else m
  | _, _ => m

/-- Toggle solo on a track: flip its soloed flag, recompute the global
solo-active flag as whether any track is soloed, then recompute every
track fader gain. Returns the new soloed flag of the track. -/
def toggleTrackSolo (m : MixerModel) (trackId : String) : MixerModel × Bool :=
  match m.stateTracks.lookup trackId with
  | none => (m, false)
  | some st =>
    let st1 := { st with soloed := !st.soloed }
    let m1 := { m with stateTracks := setAssoc m.stateTracks trackId st1 }
    let m2 := { m1 with soloActive := m1.stateTracks.any (fun p => p.2.soloed) }
    (m2.stateTracks.foldl (fun acc p => setTrackVolume acc p.1 p.2.volume) m2, st1.soloed)

/-- Set the master EQ: a no-op without a master chain or context; otherwise
update the three gain node parameters, update the mid frequency node only
when the argument is present, and mirror the same into the EQ state. -/
def setMasterEQ (m : MixerModel) (low mid high : ℚ) (midFreq : Option ℚ) : MixerModel :=
  if m.masterPresent && m.ctxOk then
    { m with
      eqLowNode := low
      eqMidNode := mid
      eqHighNode := high
      eqMidFreqNode := match midFreq with | some f => f | none => m.eqMidFreqNode
      stateMasterEq :=
        { lowGain := low
          midGain := mid
          highGain := high
          midFreq := match midFreq with | some f => f | none => m.stateMasterEq.midFreq } }
  else m

/-- Snapshot of the mixer state returned to observers. -/
structure MixerStateView where
  stateTracks : List (String × MTrackState)
  soloActive : Bool
  masterEq : MasterEQ
deriving DecidableEq

/-- Copy out the current mixer state. -/
def getMixerState (m : MixerModel) : MixerStateView :=
  { stateTracks := m.stateTracks, soloActive := m.soloActive, masterEq := m.stateMasterEq }

/-! ### Association-list lemmas -/

theorem setAssoc_cons {β : Type} (a : String) (b : β) (t : List (String × β))
    (k : String) (v : β) :
    setAssoc ((a, b) :: t) k v =
      (if a == k then (a, v) else (a, b)) :: setAssoc t k v := rfl

theorem lookup_cons_eq {β : Type} (a : String) (b : β) (t : List (String × β)) :
    List.lookup a ((a, b) :: t) = some b := by
  simp only [List.lookup, beq_self_eq_true]

theorem lookup_cons_ne {β : Type} (k a : String) (b : β) (t : List (String × β))
    (h : k ≠ a) : List.lookup k ((a, b) :: t) = List.lookup k t := by
  simp only [List.lookup, show (k == a) = false from beq_eq_false_iff_ne.mpr h]

theorem lookup_isSome_iff {β : Type} (l : List (String × β)) (k : String) :
    (l.lookup k).isSome = true ↔ k ∈ l.map Prod.fst := by
  induction l with
  | nil => simp [List.lookup]
  | cons p t ih =>
    obtain ⟨a, b⟩ := p
    by_cases hk : k = a
    · subst hk
      rw [lookup_cons_eq]
      simp
    · rw [lookup_cons_ne k a b t hk]
      simp [List.map_cons, List.mem_cons, hk, ih]

theorem lookup_of_mem_nodup {β : Type} (l : List (String × β)) (k : String) (v : β)
    (hnd : (l.map Prod.fst).Nodup) (hmem : (k, v) ∈ l) : l.lookup k = some v := by
  induction l with
  | nil => cases hmem
  | cons p t ih =>
    obtain ⟨a, b⟩ := p
    simp only [List.map_cons, List.nodup_cons] at hnd
    rcases List.mem_cons.mp hmem with h | h
    · injection h with h1 h2
      subst h1
      subst h2
      exact lookup_cons_eq k v t
    · have hk : k ≠ a := by
        intro hc
        subst hc
        exact hnd.1 (List.mem_map.mpr ⟨(k, v), h, rfl⟩)
      rw [lookup_cons_ne k a b t hk]
      exact ih hnd.2 h

theorem lookup_setAssoc_self {β : Type} (l : List (String × β)) (k : String) (v : β)
    (h : (l.lookup k).isSome = true) : (setAssoc l k v).lookup k = some v := by
  induction l with
  | nil => simp [List.lookup] at h
  | cons p t ih =>
    obtain ⟨a, b⟩ := p
    rw [setAssoc_cons]
    by_cases hk : k = a
    · subst hk
      rw [if_pos (beq_self_eq_true k)]
      exact lookup_cons_eq k v _
    · rw [if_neg (show ¬((a == k) = true) by simp [Ne.symm hk]),
        lookup_cons_ne k a b _ hk]
      apply ih
      rwa [lookup_cons_ne k a b t hk] at h

theorem lookup_setAssoc_ne {β : Type} (l : List (String × β)) (k k2 : String) (v : β)
    (h : k2 ≠ k) : (setAssoc l k v).lookup k2 = l.lookup k2 := by
  induction l with
  | nil => rfl
  | cons p t ih =>
    obtain ⟨a, b⟩ := p
    rw [setAssoc_cons]
    by_cases ha : a = k
    · subst ha
      rw [if_pos (beq_self_eq_true a), lookup_cons_ne k2 a v _ h,
        lookup_cons_ne k2 a b t h]
      exact ih
    · rw [if_neg (show ¬((a == k) = true) by simp [ha])]
      by_cases hk2 : k2 = a
      · subst hk2
        rw [lookup_cons_eq k2 b _, lookup_cons_eq k2 b t]
      · rw [lookup_cons_ne k2 a b _ hk2, lookup_cons_ne k2 a b t hk2]
        exact ih

theorem setAssoc_map_fst {β : Type} (l : List (String × β)) (k : String) (v : β) :
    (setAssoc l k v).map Prod.fst = l.map Prod.fst := by
  simp only [setAssoc, List.map_map]
  congr 1
  funext p
  simp only [Function.comp_apply]
  split <;> rfl

theorem setAssoc_of_not_mem {β : Type} (l : List (String × β)) (k : String) (v : β)
    (h : k ∉ l.map Prod.fst) : setAssoc l k v = l := by
  induction l with
  | nil => rfl
  | cons p t ih =>
    obtain ⟨a, b⟩ := p
    simp only [List.map_cons, List.mem_cons, not_or] at h
    rw [setAssoc_cons, if_neg (show ¬((a == k) = true) by simp [Ne.symm h.1]), ih h.2]

theorem setAssoc_eq_of_lookup {β : Type} (l : List (String × β)) (k : String) (v : β)
    (hnd : (l.map Prod.fst).Nodup) (h : l.lookup k = some v) : setAssoc l k v = l := by
  induction l with
  | nil => rfl
  | cons p t ih =>
    obtain ⟨a, b⟩ := p
    simp only [List.map_cons, List.nodup_cons] at hnd
    by_cases hk : k = a
    · subst hk
      rw [lookup_cons_eq] at h
      injection h with hb
      subst hb
      rw [setAssoc_cons, if_pos (beq_self_eq_true k), setAssoc_of_not_mem t k _ hnd.1]
    · rw [lookup_cons_ne k a b t hk] at h
      rw [setAssoc_cons, if_neg (show ¬((a == k) = true) by simp [Ne.symm hk]),
        ih hnd.2 h]

/-! ### Claim C6 -/

/-- The fader-refresh loop run at the end of a solo toggle. -/
def applyVolumes (l : List (String × MTrackState)) (acc : MixerModel) : MixerModel :=
  l.foldl (fun acc p => setTrackVolume acc p.1 p.2.volume) acc

theorem applyVolumes_cons (k : String) (st : MTrackState)
    (t : List (String × MTrackState)) (acc : MixerModel) :
    applyVolumes ((k, st) :: t) acc = applyVolumes t (setTrackVolume acc k st.volume) := rfl

theorem applyVolumes_spec (m2 : MixerModel)
    (hndm : (m2.stateTracks.map Prod.fst).Nodup) :
    ∀ (l : List (String × MTrackState)) (acc : MixerModel),
      acc.stateTracks = m2.stateTracks →
      acc.soloActive = m2.soloActive →
      acc.ctxOk = true →
      acc.trackNodes.map Prod.fst = m2.stateTracks.map Prod.fst →
      (∀ p ∈ l, m2.stateTracks.lookup p.1 = some p.2) →
      (l.map Prod.fst).Nodup →
      (applyVolumes l acc).stateTracks = m2.stateTracks ∧
      (applyVolumes l acc).soloActive = m2.soloActive ∧
      (applyVolumes l acc).ctxOk = true ∧
      (applyVolumes l acc).trackNodes.map Prod.fst = m2.stateTracks.map Prod.fst ∧
      (∀ k, k ∉ l.map Prod.fst →
        (applyVolumes l acc).trackNodes.lookup k = acc.trackNodes.lookup k) ∧
      (∀ p ∈ l, (applyVolumes l acc).trackNodes.lookup p.1 =
        some (calculateEffectiveVolume m2 p.1 p.2.volume)) := by
  intro l
  induction l with
  | nil =>
    intro acc h1 h2 h3 h4 _ _
    exact ⟨h1, h2, h3, h4, fun k _ => rfl, fun p hp => absurd hp (List.not_mem_nil p)⟩
  | cons hd t ih =>
    intro acc h1 h2 h3 h4 hmem hnd
    obtain ⟨k0, st0⟩ := hd
    simp only [List.map_cons, List.nodup_cons] at hnd
    rw [applyVolumes_cons]
    have hm2lk : m2.stateTracks.lookup k0 = some st0 :=
      hmem (k0, st0) (List.mem_cons_self _ _)
    have hstlk : acc.stateTracks.lookup k0 = some st0 := by
      rw [h1]
      exact hm2lk
    have hk0mem : k0 ∈ m2.stateTracks.map Prod.fst :=
      (lookup_isSome_iff _ _).mp (by rw [hm2lk]; rfl)
    have hnodeSome : (acc.trackNodes.lookup k0).isSome = true := by
      rw [lookup_isSome_iff, h4]
      exact hk0mem
    obtain ⟨g, hg⟩ := Option.isSome_iff_exists.mp hnodeSome
    have hacc1 : setTrackVolume acc k0 st0.volume =
        { acc with
          trackNodes := setAssoc acc.trackNodes k0
            (calculateEffectiveVolume acc k0 st0.volume)
          stateTracks := setAssoc acc.stateTracks k0 { st0 with volume := st0.volume } } := by
      unfold setTrackVolume
      rw [hg, hstlk]
      dsimp only
      rw [if_pos h3]
    have heta : ({ st0 with volume := st0.volume } : MTrackState) = st0 := rfl
    have hst1 : (setTrackVolume acc k0 st0.volume).stateTracks = acc.stateTracks := by
      rw [hacc1]
      dsimp only
      rw [heta, setAssoc_eq_of_lookup _ _ _ (by rw [h1]; exact hndm) hstlk]
    have heff : calculateEffectiveVolume acc k0 st0.volume =
        calculateEffectiveVolume m2 k0 st0.volume := by
      unfold calculateEffectiveVolume
      rw [h1, h2]
    have htn1 : (setTrackVolume acc k0 st0.volume).trackNodes =
        setAssoc acc.trackNodes k0 (calculateEffectiveVolume m2 k0 st0.volume) := by
      rw [hacc1, heff]
    have h1b : (setTrackVolume acc k0 st0.volume).stateTracks = m2.stateTracks :=
      hst1.trans h1
    have h2b : (setTrackVolume acc k0 st0.volume).soloActive = m2.soloActive := by
      rw [hacc1]
      exact h2
    have h3b : (setTrackVolume acc k0 st0.volume).ctxOk = true := by
      rw [hacc1]
      exact h3
    have h4b : (setTrackVolume acc k0 st0.volume).trackNodes.map Prod.fst =
        m2.stateTracks.map Prod.fst := by
      rw [htn1, setAssoc_map_fst]
      exact h4
    have hmem2 : ∀ p ∈ t, m2.stateTracks.lookup p.1 = some p.2 :=
      fun p hp => hmem p (List.mem_cons.mpr (Or.inr hp))
    have hIH := ih (setTrackVolume acc k0 st0.volume) h1b h2b h3b h4b hmem2 hnd.2
    refine ⟨hIH.1, hIH.2.1, hIH.2.2.1, hIH.2.2.2.1, ?_, ?_⟩
    · intro k hk
      simp only [List.map_cons, List.mem_cons, not_or] at hk
      rw [hIH.2.2.2.2.1 k hk.2, htn1, lookup_setAssoc_ne _ _ _ _ hk.1]
    · intro p hp
      rcases List.mem_cons.mp hp with hph | hpt
      · rw [hph]
        dsimp only
        rw [hIH.2.2.2.2.1 k0 hnd.1, htn1,
          lookup_setAssoc_self _ _ _ hnodeSome]
      · exact hIH.2.2.2.2.2 p hpt

/-- C6: toggling solo on an existing track sets the global solo-active flag
to whether any track is now soloed, and recomputes every track fader gain to
the mute and solo policy: zero when muted; otherwise, when solo is active,
the configured volume for soloed tracks and zero for the rest; otherwise the
configured volume. -/
theorem solo_mute_policy (m : MixerModel) (trackId : String)
    (hmem : (m.stateTracks.lookup trackId).isSome = true)
    (hnd : (m.stateTracks.map Prod.fst).Nodup)
    (hkeys : m.trackNodes.map Prod.fst = m.stateTracks.map Prod.fst)
    (hctx : m.ctxOk = true) :
    (toggleTrackSolo m trackId).1.soloActive =
      (toggleTrackSolo m trackId).1.stateTracks.any (fun p => p.2.soloed) ∧
    (∀ p ∈ (toggleTrackSolo m trackId).1.stateTracks,
      (toggleTrackSolo m trackId).1.trackNodes.lookup p.1 =
        some (if p.2.muted then 0
          else if (toggleTrackSolo m trackId).1.soloActive then
            (if p.2.soloed then p.2.volume else 0)
          else p.2.volume)) := by
  obtain ⟨st, hst⟩ := Option.isSome_iff_exists.mp hmem
  have htog : (toggleTrackSolo m trackId).1 =
      applyVolumes
        ({ m with
            stateTracks := setAssoc m.stateTracks trackId { st with soloed := !st.soloed }
            soloActive := (setAssoc m.stateTracks trackId
              { st with soloed := !st.soloed }).any (fun p => p.2.soloed) }).stateTracks
        { m with
            stateTracks := setAssoc m.stateTracks trackId { st with soloed := !st.soloed }
            soloActive := (setAssoc m.stateTracks trackId
              { st with soloed := !st.soloed }).any (fun p => p.2.soloed) } := by
    unfold toggleTrackSolo
    rw [hst]
    rfl
  have hndm2 : ((setAssoc m.stateTracks trackId
      { st with soloed := !st.soloed }).map Prod.fst).Nodup := by
    rw [setAssoc_map_fst]
    exact hnd
  have hspec := applyVolumes_spec
    { m with
        stateTracks := setAssoc m.stateTracks trackId { st with soloed := !st.soloed }
        soloActive := (setAssoc m.stateTracks trackId
          { st with soloed := !st.soloed }).any (fun p => p.2.soloed) }
    hndm2
    (setAssoc m.stateTracks trackId { st with soloed := !st.soloed })
    { m with
        stateTracks := setAssoc m.stateTracks trackId { st with soloed := !st.soloed }
        soloActive := (setAssoc m.stateTracks trackId
          { st with soloed := !st.soloed }).any (fun p => p.2.soloed) }
    rfl rfl hctx (by rw [setAssoc_map_fst]; exact hkeys)
    (fun p hp => lookup_of_mem_nodup _ _ _ hndm2 hp)
    hndm2
  rw [htog]
  constructor
  · rw [hspec.1, hspec.2.1]
  · intro p hp
    rw [hspec.1] at hp
    have hval := hspec.2.2.2.2.2 p hp
    rw [hval]
    congr 1
    unfold calculateEffectiveVolume
    rw [lookup_of_mem_nodup _ _ _ hndm2 hp]
    rw [hspec.2.1]

/-- A three-track demo mixer, nothing muted or soloed. -/
def mixerDemo : MixerModel :=
  { ctxOk := true, masterPresent := true,
    trackNodes := [("kick", 4 / 5), ("snare", 4 / 5), ("hihat", 4 / 5)],
    stateTracks := [("kick", ⟨4 / 5, 0, false, false, 1⟩),
      ("snare", ⟨4 / 5, 0, false, false, 1⟩), ("hihat", ⟨4 / 5, 0, false, false, 1⟩)],
    soloActive := false, eqLowNode := 0, eqMidNode := 0, eqHighNode := 0,
    eqMidFreqNode := 1000, stateMasterEq := ⟨0, 0, 0, 1000⟩ }

/-- Witness for C6: toggling solo on the kick track of the demo mixer. -/
theorem solo_mute_policy_witness :
    (toggleTrackSolo mixerDemo "kick").1.soloActive =
      (toggleTrackSolo mixerDemo "kick").1.stateTracks.any (fun p => p.2.soloed) :=
  (solo_mute_policy mixerDemo "kick" rfl (by decide) rfl rfl).1

/-! ### Claim C9 -/

/-- C9: with the mixer operating (master chain and context present), setting
the master EQ to gains 3, -2 and 1 with mid frequency 1200 and querying the
state returns exactly those four values, and when the mid frequency argument
is omitted the stored mid frequency is unchanged. -/
theorem master_eq_round_trip (m : MixerModel) (hmp : m.masterPresent = true)
    (hctx : m.ctxOk = true) :
    (getMixerState (setMasterEQ m 3 (-2) 1 (some 1200))).masterEq = ⟨3, -2, 1, 1200⟩ ∧
    (∀ low mid high : ℚ,
      (setMasterEQ m low mid high none).stateMasterEq.midFreq = m.stateMasterEq.midFreq) := by
  have hc : (m.masterPresent && m.ctxOk) = true := by
    rw [hmp, hctx]
    rfl
  constructor
  · unfold setMasterEQ getMixerState
    rw [if_pos hc]
  · intro low mid high
    unfold setMasterEQ
    rw [if_pos hc]

/-- Witness for C9: the round trip on the demo mixer. -/
theorem master_eq_round_trip_witness :
    (getMixerState (setMasterEQ mixerDemo 3 (-2) 1 (some 1200))).masterEq =
      ⟨3, -2, 1, 1200⟩ :=
  (master_eq_round_trip mixerDemo rfl rfl).1

/-! ### Claim C8 -/

/-- One entry of the soft limiter transfer table, mirroring the loop body of
createSoftLimiterCurve: x spans -1 to 1 over the table, identity below the
0.95 threshold, soft-knee compression above it. -/
def softLimiterSample (i : Nat) : ℚ :=
  let x : ℚ := (i : ℚ) / 44100 * 2 - 1
  let threshold : ℚ := 95 / 100
  if |x| < threshold then x
  else
    let signv : ℚ := if x < 0 then -1 else 1
    let excess := |x| - threshold
    signv * (threshold + excess / (1 + excess * 2))

/-- The soft limiter transfer table, computed once over 44100 samples. -/
def createSoftLimiterCurve : List ℚ := (List.range 44100).map softLimiterSample

/-- The sign function on rationals. -/
def ratSign (x : ℚ) : ℚ := if x < 0 then -1 else if x = 0 then 0 else 1

/-- The transfer value the specification prescribes at amplitude x: x below
the 0.95 threshold, sign times threshold plus excess over one plus twice the
excess above it. -/
def limiterSpecValue (x : ℚ) : ℚ :=
  if |x| < 95 / 100 then x
  else ratSign x * (95 / 100 + (|x| - 95 / 100) / (1 + 2 * (|x| - 95 / 100)))

theorem softLimiterSample_eq_spec (i : Nat) :
    softLimiterSample i = limiterSpecValue ((i : ℚ) / 44100 * 2 - 1) := by
  unfold softLimiterSample limiterSpecValue ratSign
  by_cases hx : |(i : ℚ) / 44100 * 2 - 1| < 95 / 100
  · rw [if_pos hx, if_pos hx]
  · rw [if_neg hx, if_neg hx]
    have hge : (95 : ℚ) / 100 ≤ |(i : ℚ) / 44100 * 2 - 1| := le_of_not_lt hx
    have hxne : (i : ℚ) / 44100 * 2 - 1 ≠ 0 := by
      intro hc
      rw [hc, abs_zero] at hge
      norm_num at hge
    by_cases hneg : (i : ℚ) / 44100 * 2 - 1 < 0
    · rw [if_pos hneg, if_pos hneg]
      ring
    · rw [if_neg hneg, if_neg hneg, if_neg hxne]
      ring

/-- C8: every entry of the soft limiter transfer table satisfies the curve
the specification gives: at index i with x = i divided by the table size,
scaled to the -1 to 1 range, the stored value is x when the magnitude of x
is below 0.95 and sign of x times (0.95 + excess over (1 + 2 excess)), with
excess the magnitude of x minus 0.95, otherwise. -/
theorem soft_limiter_curve_spec (i : Nat) (h : i < 44100) :
    createSoftLimiterCurve.get? i =
      some (limiterSpecValue ((i : ℚ) / 44100 * 2 - 1)) := by
  unfold createSoftLimiterCurve
  rw [List.get?_map, List.get?_range h, Option.map_some', softLimiterSample_eq_spec]

/-- Witness for C8: the table entry at the middle of the range. -/
theorem soft_limiter_curve_spec_witness :
    (22050 : Nat) < 44100 ∧
    createSoftLimiterCurve.get? 22050 =
      some (limiterSpecValue ((22050 : ℚ) / 44100 * 2 - 1)) :=
  ⟨by decide, soft_limiter_curve_spec 22050 (by decide)⟩

/-! ### Claim C7 -/

/-- The sample loader: a store of decoded buffers (abstracted to handles)
keyed by sample id, and the batch-completed flag. -/
structure SampleLoaderModel where
  samples : List (String × Nat)
  isLoaded : Bool
deriving DecidableEq

/-- Object assignment: replace the value when the key exists, append a new
entry otherwise. -/
def objSet {β : Type} (l : List (String × β)) (k : String) (v : β) :
    List (String × β) :=
  if (l.lookup k).isSome then setAssoc l k v else l ++ [(k, v)]

/-- Fetch a loaded sample, absent ids give none. -/
def SampleLoaderModel.getSample (m : SampleLoaderModel) (id : String) : Option Nat :=
  m.samples.lookup id

/-- True once a load batch has completed. -/
def SampleLoaderModel.isReady (m : SampleLoaderModel) : Bool := m.isLoaded

/-- Load a single sample: run the fetch-and-decode action of the
environment inside a try block; any failure is caught, returning none and
leaving the store unchanged. -/
def loadSampleE (env : String → Except String Nat) (loader : SampleLoaderModel)
    (url id : String) : Except String (SampleLoaderModel × Option Nat) :=
  tryCatch
    (do
      let buf ← env url
      pure ({ loader with samples := objSet loader.samples id buf }, some buf))
    (fun _ => pure (loader, none))

/-- The pure result of loadSampleE. -/
def loadSample (env : String → Except String Nat) (loader : SampleLoaderModel)
    (url id : String) : SampleLoaderModel × Option Nat :=
  match env url with
  | Except.ok buf => ({ loader with samples := objSet loader.samples id buf }, some buf)
  | Except.error _ => (loader, none)

theorem loadSampleE_eq (env : String → Except String Nat) (loader : SampleLoaderModel)
    (url id : String) :
    loadSampleE env loader url id = Except.ok (loadSample env loader url id) := by
  unfold loadSampleE loadSample
  cases henv : env url with
  | ok buf =>
    simp [henv, tryCatch, tryCatchThe, MonadExceptOf.tryCatch, Except.tryCatch,
      Bind.bind, Except.bind, Pure.pure, Except.pure]
  | error e =>
    simp [henv, tryCatch, tryCatchThe, MonadExceptOf.tryCatch, Except.tryCatch,
      Bind.bind, Except.bind, Pure.pure, Except.pure]

/-- Load a batch of (id, url) entries, awaiting all, then mark the loader
ready regardless of individual failures. -/
def loadSamplesE (env : String → Except String Nat) (loader : SampleLoaderModel)
    (entries : List (String × String)) : Except String SampleLoaderModel := do
  let l2 ← entries.foldlM
    (fun acc e => do
      let r ← loadSampleE env acc e.2 e.1
      pure r.1)
    loader
  pure { l2 with isLoaded := true }

/-- The pure result of loadSamplesE. -/
def loadSamples (env : String → Except String Nat) (loader : SampleLoaderModel)
    (entries : List (String × String)) : SampleLoaderModel :=
  { entries.foldl (fun acc e => (loadSample env acc e.2 e.1).1) loader with
    isLoaded := true }

theorem loadSamplesE_eq (env : String → Except String Nat) (loader : SampleLoaderModel)
    (entries : List (String × String)) :
    loadSamplesE env loader entries = Except.ok (loadSamples env loader entries) := by
  unfold loadSamplesE loadSamples
  have hfold : ∀ (es : List (String × String)) (acc : SampleLoaderModel),
      es.foldlM (fun acc e => do
        let r ← loadSampleE env acc e.2 e.1
        pure r.1) acc =
      Except.ok (es.foldl (fun acc e => (loadSample env acc e.2 e.1).1) acc) := by
    intro es
    induction es with
    | nil => intro acc; rfl
    | cons e t ih =>
      intro acc
      rw [List.foldlM_cons, List.foldl_cons]
      rw [loadSampleE_eq]
      simp only [Bind.bind, Except.bind, Pure.pure, Except.pure]
      exact ih _
  rw [hfold]
  rfl

theorem lookup_append_single {β : Type} (l : List (String × β)) (k : String) (v : β)
    (hn : l.lookup k = none) : (l ++ [(k, v)]).lookup k = some v := by
  induction l with
  | nil => exact lookup_cons_eq k v []
  | cons p t ih =>
    obtain ⟨a, b⟩ := p
    by_cases hk : k = a
    · subst hk
      rw [lookup_cons_eq] at hn
      cases hn
    · rw [List.cons_append, lookup_cons_ne k a b _ hk]
      exact ih (by rwa [lookup_cons_ne k a b t hk] at hn)

theorem lookup_append_single_ne {β : Type} (l : List (String × β)) (k k2 : String)
    (v : β) (h : k2 ≠ k) : (l ++ [(k, v)]).lookup k2 = l.lookup k2 := by
  induction l with
  | nil =>
    rw [List.nil_append, lookup_cons_ne k2 k v [] h]
  | cons p t ih =>
    obtain ⟨a, b⟩ := p
    by_cases hk : k2 = a
    · subst hk
      rw [List.cons_append, lookup_cons_eq, lookup_cons_eq]
    · rw [List.cons_append, lookup_cons_ne k2 a b _ hk, lookup_cons_ne k2 a b t hk]
      exact ih

theorem lookup_objSet_self {β : Type} (l : List (String × β)) (k : String) (v : β) :
    (objSet l k v).lookup k = some v := by
  unfold objSet
  split
  · next h => exact lookup_setAssoc_self l k v h
  · next h =>
    apply lookup_append_single
    cases hc : l.lookup k with
    | none => rfl
    | some b =>
      rw [hc] at h
      simp at h

theorem lookup_objSet_ne {β : Type} (l : List (String × β)) (k k2 : String) (v : β)
    (h : k2 ≠ k) : (objSet l k v).lookup k2 = l.lookup k2 := by
  unfold objSet
  split
  · exact lookup_setAssoc_ne l k k2 v h
  · exact lookup_append_single_ne l k k2 v h

theorem loadFold_lookup (env : String → Except String Nat) :
    ∀ (entries : List (String × String)) (acc : SampleLoaderModel),
      (∀ k, k ∉ entries.map Prod.fst →
        (entries.foldl (fun a e => (loadSample env a e.2 e.1).1) acc).samples.lookup k =
          acc.samples.lookup k) ∧
      ((entries.map Prod.fst).Nodup →
        ∀ p ∈ entries,
          (entries.foldl (fun a e => (loadSample env a e.2 e.1).1) acc).samples.lookup p.1 =
            match env p.2 with
            | Except.ok buf => some buf
            | Except.error _ => acc.samples.lookup p.1) := by
  intro entries
  induction entries with
  | nil =>
    intro acc
    exact ⟨fun k _ => rfl, fun _ p hp => absurd hp (List.not_mem_nil p)⟩
  | cons e t ih =>
    intro acc
    obtain ⟨id0, url0⟩ := e
    constructor
    · intro k hk
      simp only [List.map_cons, List.mem_cons, not_or] at hk
      rw [List.foldl_cons]
      rw [(ih _).1 k hk.2]
      unfold loadSample
      cases henv : env url0 with
      | ok buf =>
        dsimp only
        exact lookup_objSet_ne _ _ _ _ hk.1
      | error err => rfl
    · intro hnd p hp
      simp only [List.map_cons, List.nodup_cons] at hnd
      rw [List.foldl_cons]
      rcases List.mem_cons.mp hp with hph | hpt
      · rw [hph]
        dsimp only
        rw [(ih _).1 id0 hnd.1]
        unfold loadSample
        cases henv : env url0 with
        | ok buf =>
          dsimp only
          rw [lookup_objSet_self]
        | error err => rfl
      · have hne : p.1 ≠ id0 := by
          intro hc
          exact hnd.1 (hc ▸ List.mem_map.mpr ⟨p, hpt, rfl⟩)
        have hstep : (loadSample env acc url0 id0).1.samples.lookup p.1 =
            acc.samples.lookup p.1 := by
          unfold loadSample
          cases henv : env url0 with
          | ok buf =>
            dsimp only
            exact lookup_objSet_ne _ _ _ _ hne
          | error err => rfl
        have hih := (ih (loadSample env acc (id0, url0).2 (id0, url0).1).1).2 hnd.2 p hpt
        rw [hih]
        cases henv : env p.2 with
        | ok buf => rfl
        | error err => exact hstep

/-- C7: a load batch never lets an exception escape (the result is always
ok), the loader reports ready after the batch completes even when every
entry failed, and for pairwise-distinct ids each failed entry reads back as
absent while each successfully decoded entry reads back its buffer. -/
theorem sample_loader_containment (env : String → Except String Nat)
    (entries : List (String × String)) (hnd : (entries.map Prod.fst).Nodup) :
    ∃ m, loadSamplesE env ⟨[], false⟩ entries = Except.ok m ∧
      m.isReady = true ∧
      ∀ p ∈ entries,
        m.getSample p.1 =
          match env p.2 with
          | Except.ok buf => some buf
          | Except.error _ => none := by
  refine ⟨loadSamples env ⟨[], false⟩ entries,
    loadSamplesE_eq env ⟨[], false⟩ entries, rfl, ?_⟩
  intro p hp
  have h := (loadFold_lookup env entries ⟨[], false⟩).2 hnd p hp
  unfold SampleLoaderModel.getSample
  unfold loadSamples
  dsimp only
  cases henv : env p.2 with
  | ok buf =>
    rw [henv] at h
    exact h
  | error err =>
    rw [henv] at h
    exact h

/-- Witness for C7: a batch with a single entry whose fetch always fails. -/
theorem sample_loader_containment_witness :
    ∃ m, loadSamplesE (fun _ => Except.error "bad") ⟨[], false⟩ [("x", "bad://url")] =
        Except.ok m ∧
      m.isReady = true ∧
      ∀ p ∈ [("x", "bad://url")],
        m.getSample p.1 =
          match (fun _ => Except.error "bad" : String → Except String Nat) p.2 with
          | Except.ok buf => some buf
          | Except.error _ => none :=
  sample_loader_containment (fun _ => Except.error "bad") [("x", "bad://url")] (by decide)

end DrumKit
